import Mathlib

/-!
# Student Record Management System (`srms.c`): grading engine, analytics, stores, login

A shallow embedding of the C program `src/srms.c` and proofs of its specified properties.

Conventions of the embedding.

* C `int` values are `Int`; the `int` arithmetic of `estimateGraduation` wraps at 32 bits
  (`wrapInt`); the counters elsewhere stay below `numSubjects`.
* A finite C `float` value is the rational it denotes (`ℚ`); the `float` arithmetic of
  `computeCGPA`, of the hard-subject report and of `%f` rounds to binary32 (`F32`). The
  comparisons and the grace deficit `40 - mark` of `applyGrace` are exact on the values
  concerned.
* A C string (`char[N]`, NUL terminated) is a `String`; `strcmp(a, b) == 0` is `a = b`.
* The arrays `subjectNames[MAX_SUBJECTS]` and `marks[MAX_SUBJECTS]` of a `Student` are
  lists; slot `i` is read with `Student.subjectName` / `Student.mark`.
* The global arrays `users[0 .. userCount)` and `students[0 .. studentCount)` are lists
  whose length is the count.
* Console reads (`readLine`, `readInt`, `atof`) are represented by the values they return.
  `logAction` only appends to the log file, which the program never reads; it is left out.
-/

namespace SRMS

/-! ## Constants (`#define`s, lines 10-15) -/

def MAX_USERS : Nat := 50
def MAX_STUDENTS : Nat := 200
def MAX_SUBJECTS : Nat := 10
def NAME_LEN : Nat := 50
def SUBJ_LEN : Nat := 30
def ROLE_LEN : Nat := 12

/-! ## Data model (lines 17-39) -/

/-- The C struct `User`. -/
structure User where
  username : String
  password : String
  role : String
  lastLogin : String
deriving DecidableEq

/-- The C struct `Student`. -/
structure Student where
  roll : Int
  name : String
  branch : String
  semester : Int
  numSubjects : Int
  subjectNames : List String
  marks : List ℚ
  attendance : ℚ
deriving DecidableEq

/-- The value of `s->marks[i]`. -/
def Student.mark (s : Student) (i : Nat) : ℚ := s.marks.getD i 0

/-- The value of `s->subjectNames[i]`. -/
def Student.subjectName (s : Student) (i : Nat) : String := s.subjectNames.getD i ""

/-- The index values taken by `for (int i = 0; i < s->numSubjects; ++i)`. -/
def Student.indices (s : Student) : List Nat := List.range s.numSubjects.toNat

/-! ## C arithmetic: `int` and `float`

`int` is the 32-bit two's-complement integer; where an operation can leave its range the
result wraps, as in the compiled program. `float` is IEEE 754 binary32 with rounding to
nearest, ties to even: a finite value is the rational it denotes, and zero is unsigned (no
division by zero occurs in the program: every divisor is a positive count). -/

/-- The least `int`. -/
def INT_MIN : Int := -2147483648

/-- The greatest `int`. -/
def INT_MAX : Int := 2147483647

/-- The `int` an arithmetic result wraps to. -/
def wrapInt (z : Int) : Int := (z + 2147483648) % 4294967296 - 2147483648

/-- A `float` value. -/
inductive F32 where
  /-- A finite value, the rational it denotes. -/
  | fin (q : ℚ)
  /-- An infinity, negative if the flag is set. -/
  | inf (negative : Bool)
  /-- Not a number. -/
  | nan
deriving DecidableEq

/-- The integer nearest to `n / d`, ties to even. -/
def roundNearestEven (n d : Nat) : Nat :=
  let fl := n / d
  let rem := n % d
  if 2 * rem < d then fl
  else if d < 2 * rem then fl + 1
  else if fl % 2 = 0 then fl else fl + 1

/-- Whether `2 ^ e ≤ a / b`, for `b > 0`. -/
def pow2Le (e : Int) (a b : Nat) : Bool :=
  if 0 ≤ e then decide (b * 2 ^ e.toNat ≤ a) else decide (b ≤ a * 2 ^ (-e).toNat)

/-- Bisection, `fuel` halvings, for the greatest `e` in `[lo, hi]` with `2 ^ e ≤ a / b`;
`lo` when there is none. -/
def searchExp : Nat → Int → Int → Nat → Nat → Int
  | 0, lo, _, _, _ => lo
  | fuel + 1, lo, hi, a, b =>
    if hi ≤ lo then lo
    else
      let mid := (lo + hi + 1) / 2
      if pow2Le mid a b then searchExp fuel mid hi a b else searchExp fuel lo (mid - 1) a b

/-- The binary32 exponent of `a / b`: the greatest `e ≤ 127` with `2 ^ e ≤ a / b`, and
`-126` (the subnormal range) when there is none above it. -/
def f32Exponent (a b : Nat) : Int := searchExp 8 (-126) 127 a b

/-- The `float` nearest to the rational `q` (24 significant bits, exponents `-126 .. 127`,
gradual underflow, overflow to infinity). -/
def F32.round (q : ℚ) : F32 :=
  let a := q.num.natAbs
  let b := q.den
  let ulp := f32Exponent a b - 23
  let r := if 0 ≤ ulp then roundNearestEven a (b * 2 ^ ulp.toNat)
           else roundNearestEven (a * 2 ^ (-ulp).toNat) b
  if ulp = 104 ∧ 2 ^ 24 ≤ r then F32.inf (decide (q < 0))
  else
    let mag : ℚ := if 0 ≤ ulp then mkRat ((r * 2 ^ ulp.toNat : Nat) : Int) 1
                   else mkRat (r : Int) (2 ^ (-ulp).toNat)
    F32.fin (if q < 0 then -mag else mag)

/-- The sum `a + b` on numerators and denominators. -/
def ratAdd (a b : ℚ) : ℚ := mkRat (a.num * b.den + b.num * a.den) (a.den * b.den)

/-- The product `a * b` on numerators and denominators. -/
def ratMul (a b : ℚ) : ℚ := mkRat (a.num * b.num) (a.den * b.den)

/-- The quotient `a / b` on numerators and denominators. -/
def ratDiv (a b : ℚ) : ℚ := mkRat (a.num * b.den * b.num.sign) (a.den * b.num.natAbs)

/-- The C `float` addition. -/
def F32.add : F32 → F32 → F32
  | F32.fin a, F32.fin b => F32.round (ratAdd a b)
  | F32.nan, _ => F32.nan
  | _, F32.nan => F32.nan
  | F32.inf s, F32.inf t => if s = t then F32.inf s else F32.nan
  | F32.inf s, F32.fin _ => F32.inf s
  | F32.fin _, F32.inf s => F32.inf s

/-- The C `float` multiplication. -/
def F32.mul : F32 → F32 → F32
  | F32.fin a, F32.fin b => F32.round (ratMul a b)
  | F32.nan, _ => F32.nan
  | _, F32.nan => F32.nan
  | F32.inf s, F32.inf t => F32.inf (s != t)
  | F32.inf s, F32.fin b => if b = 0 then F32.nan else F32.inf (s != decide (b < 0))
  | F32.fin a, F32.inf s => if a = 0 then F32.nan else F32.inf (s != decide (a < 0))

/-- The C `float` division. -/
def F32.div : F32 → F32 → F32
  | F32.fin a, F32.fin b =>
    if b = 0 then (if a = 0 then F32.nan else F32.inf (decide (a < 0)))
    else F32.round (ratDiv a b)
  | F32.nan, _ => F32.nan
  | _, F32.nan => F32.nan
  | F32.inf _, F32.inf _ => F32.nan
  | F32.inf s, F32.fin b => F32.inf (s != decide (b < 0))
  | F32.fin _, F32.inf _ => F32.fin 0

/-- The C comparison `x < y` of two `float`s. -/
def F32.lt : F32 → F32 → Bool
  | F32.fin a, F32.fin b => decide (a < b)
  | F32.nan, _ => false
  | _, F32.nan => false
  | F32.inf s, F32.inf t => s && !t
  | F32.inf s, F32.fin _ => s
  | F32.fin _, F32.inf t => !t

/-- The conversion of an `int` to `float`. -/
def F32.ofInt (n : Int) : F32 := F32.round (mkRat n 1)

/-- The rational `q` is a `float`: rounding leaves it as it is. -/
def isF32 (q : ℚ) : Prop := F32.round q = F32.fin q

instance isF32.decidable (q : ℚ) : Decidable (isF32 q) := by
  unfold isF32
  infer_instance

/-! ## Core logic (lines 158-226) -/

/-- The pass mark `passMark = 40.0f` (also the literal in `countBacklogs`). -/
def passMark : ℚ := 40

/-- The sum of the marks in use, for the average of `applyGrace` (line 199). The average
enters the test of line 201 only beside `needed <= 3.0f`, where `needed > 0 && needed <= 5.0f`
already holds (a single mark fails, so `needed > 0`): its rounding cannot change the test. -/
def sumMarks (s : Student) : ℚ := s.indices.foldl (fun total i => total + s.mark i) 0

/-- The `float` accumulation `for (...) total += s->marks[i]` of `computeCGPA`
(lines 173-174). -/
def totalMarks (s : Student) : F32 :=
  s.indices.foldl (fun total i => F32.add total (F32.fin (s.mark i))) (F32.fin 0)

/-- Embedding of `computeCGPA` (lines 171-176), in `float` arithmetic. -/
def computeCGPA (s : Student) : F32 :=
  if s.numSubjects ≤ 0 then F32.fin 0
  else F32.div (totalMarks s) (F32.mul (F32.ofInt s.numSubjects) (F32.fin 10))

/-- Embedding of `countBacklogs` (lines 178-183). -/
def countBacklogs (s : Student) : Int :=
  s.indices.foldl (fun c i => if s.mark i < 40 then c + 1 else c) 0

/-- One iteration of the scan loop of `applyGrace` (lines 190-195) on the pair
`(fails, failIdx)`. -/
def graceStep (s : Student) (st : Int × Int) (i : Nat) : Int × Int :=
  if s.mark i < passMark then (st.1 + 1, (i : Int)) else st

/-- The scan loop of `applyGrace`: final `(fails, failIdx)` from `(0, -1)`. -/
def graceScan (s : Student) : Int × Int := s.indices.foldl (graceStep s) (0, -1)

/-- Embedding of `applyGrace` (lines 186-206). -/
def applyGrace (s : Student) : Student :=
  if s.numSubjects ≤ 0 then s
  else
    let fails := (graceScan s).1
    let failIdx := (graceScan s).2
    if fails = 1 ∧ failIdx ≥ 0 then
      let needed := passMark - s.mark failIdx.toNat
      let avg := sumMarks s / (s.numSubjects : ℚ)
      if (needed > 0 ∧ needed ≤ 5) ∨ (avg ≥ 75 ∧ needed ≤ 3) then
        { s with marks := s.marks.set failIdx.toNat (s.mark failIdx.toNat + needed) }
      else s
    else s

/-- The three verdict lines `estimateGraduation` can print. -/
inductive Verdict where
  | onTrack
  | canGraduate
  | mayNotGraduate
deriving DecidableEq

/-- What `estimateGraduation` computes and prints. -/
structure Forecast where
  backlogs : Int
  neededSem : Int
  remainingSem : Int
  verdict : Verdict
deriving DecidableEq

/-- Embedding of `estimateGraduation` (lines 209-226); the record is passed by
`const` pointer and only read. The `int` additions and subtractions of lines 213-214 wrap,
and C `/` truncates towards zero (`Int.tdiv`). -/
def estimateGraduation (s : Student) : Forecast :=
  let totalBacklogs := countBacklogs s
  let totalSem : Int := 8
  let clearPerSem : Int := 2
  let remainingSem := wrapInt (wrapInt (totalSem - s.semester) + 1)
  let neededSem := Int.tdiv (wrapInt (wrapInt (totalBacklogs + clearPerSem) - 1)) clearPerSem
  { backlogs := totalBacklogs
    neededSem := neededSem
    remainingSem := remainingSem
    verdict :=
      if totalBacklogs = 0 then Verdict.onTrack
      else if neededSem ≤ remainingSem then Verdict.canGraduate
      else Verdict.mayNotGraduate }

/-- Number of subjects of the record with mark below 40 (the quantity the specification
calls the number of failing subjects, or backlogs). -/
def failCount (s : Student) : Nat := (s.indices.filter (fun i => s.mark i < 40)).length

/-! ## Example records -/

/-- A record with the single failing mark 38. -/
def exSingleFail : Student :=
  { roll := 1, name := "Asha", branch := "CSE", semester := 3, numSubjects := 2,
    subjectNames := ["Math", "Art"], marks := [38, 50], attendance := 90 }

/-- A record with the two failing marks 35 and 38. -/
def exTwoFails : Student :=
  { roll := 2, name := "Ravi", branch := "ECE", semester := 3, numSubjects := 2,
    subjectNames := ["Math", "Physics"], marks := [35, 38], attendance := 80 }

/-- A semester-3 record with five backlogs. -/
def exSem3 : Student :=
  { roll := 3, name := "Meera", branch := "ME", semester := 3, numSubjects := 6,
    subjectNames := ["S1", "S2", "S3", "S4", "S5", "S6"],
    marks := [10, 20, 30, 35, 39, 50], attendance := 70 }

/-- A record with one backlog whose semester is `INT_MIN + 9`, a value `readInt` accepts. -/
def exSemOverflow : Student :=
  { roll := 13, name := "Omar", branch := "CSE", semester := -2147483639, numSubjects := 1,
    subjectNames := ["Math"], marks := [30], attendance := 90 }

/-- A semester-7 record with five backlogs. -/
def exSem7 : Student := { exSem3 with roll := 4, semester := 7 }

/-- A record with marks 30, 50, 39. -/
def exBacklogs : Student :=
  { roll := 5, name := "Kiran", branch := "CE", semester := 1, numSubjects := 3,
    subjectNames := ["Math", "Art", "Chem"], marks := [30, 50, 39], attendance := 75 }

/-- A record with marks 80, 90. -/
def exCGPA : Student :=
  { roll := 6, name := "Naveen", branch := "IT", semester := 2, numSubjects := 2,
    subjectNames := ["Math", "Art"], marks := [80, 90], attendance := 95 }

/-- A record with marks 50, 60, 65. -/
def exCGPARounded : Student :=
  { roll := 14, name := "Lata", branch := "IT", semester := 2, numSubjects := 3,
    subjectNames := ["Math", "Art", "Chem"], marks := [50, 60, 65], attendance := 95 }

/-- A record with no subjects. -/
def exNoSubjects : Student :=
  { roll := 7, name := "Divya", branch := "EE", semester := 1, numSubjects := 0,
    subjectNames := [], marks := [], attendance := 60 }

/-! ## Text of the data files: `fprintf` conversions (lines 108-119, 144-156) -/

/-- The character for the decimal digit `d < 10`. -/
def digitChar (d : Nat) : Char := Char.ofNat (48 + d)

/-- Decimal digits of `n`, most significant first, using at most `fuel` divisions. -/
def decimalAux : Nat → Nat → List Char
  | 0, _ => []
  | fuel + 1, n =>
    if n < 10 then [digitChar n] else decimalAux fuel (n / 10) ++ [digitChar (n % 10)]

/-- The decimal numeral of a natural number, without leading zeros (`0` is `"0"`). -/
def decimal (n : Nat) : List Char := decimalAux (n + 1) n

/-- The conversion `%d` of `fprintf`. -/
def fmtInt (n : Int) : List Char :=
  if n < 0 then '-' :: decimal n.natAbs else decimal n.natAbs

/-- The number of hundredths nearest to `|q|`, ties to even: the rounding `%.2f` performs. -/
def roundHundredths (q : ℚ) : Nat :=
  let n := q.num.natAbs * 100
  let d := q.den
  let fl := n / d
  let rem := n % d
  if 2 * rem < d then fl
  else if d < 2 * rem then fl + 1
  else if fl % 2 = 0 then fl else fl + 1

/-- The conversion `%.2f` of `fprintf`: sign, integer part, point, two decimals. -/
def fmtFixed2 (q : ℚ) : List Char :=
  let r := roundHundredths q
  let body := decimal (r / 100) ++ ['.', digitChar (r % 100 / 10), digitChar (r % 10)]
  if q < 0 then '-' :: body else body

/-- The lines `saveStudents` writes for the subjects at the given indices of one record
(lines 152-153). -/
def subjectLines (s : Student) : List Nat → List Char
  | [] => []
  | j :: js =>
    (s.subjectName j).data ++ [' '] ++ fmtFixed2 (s.mark j) ++ ['\n'] ++ subjectLines s js

/-- The text `saveStudents` writes for one record (lines 148-153). -/
def studentText (s : Student) : List Char :=
  fmtInt s.roll ++ [' '] ++ s.name.data ++ [' '] ++ s.branch.data ++ [' '] ++
    fmtInt s.semester ++ [' '] ++ fmtInt s.numSubjects ++ [' '] ++ fmtFixed2 s.attendance ++
    ['\n'] ++ subjectLines s s.indices

/-- Embedding of `saveStudents` (lines 144-156): the text written to `student.txt`. -/
def saveStudents : List Student → List Char
  | [] => []
  | s :: rest => studentText s ++ saveStudents rest

/-- The line `saveUsers` writes for one account (lines 112-116). -/
def userLine (u : User) : List Char :=
  u.username.data ++ [' '] ++ u.password.data ++ [' '] ++ u.role.data ++ [' '] ++
    (if u.lastLogin.data ≠ [] then u.lastLogin.data else ['-']) ++ ['\n']

/-- Embedding of `saveUsers` (lines 108-119): the text written to `credential.txt`. -/
def saveUsers : List User → List Char
  | [] => []
  | u :: rest => userLine u ++ saveUsers rest

/-! ## Text of the data files: `fscanf` conversions (lines 121-142) -/

/-- The C `isspace` in the "C" locale. -/
def isSpace (c : Char) : Bool :=
  c = ' ' || c = '\t' || c = '\n' || c = '\x0b' || c = '\x0c' || c = '\r'

/-- Skipping of leading white space, done by every conversion used here. -/
def skipSpace : List Char → List Char
  | [] => []
  | c :: cs => if isSpace c then skipSpace cs else c :: cs

/-- The C `isdigit`. -/
def isDigit (c : Char) : Bool := 48 ≤ c.toNat && c.toNat ≤ 57

/-- Reads a maximal run of decimal digits, accumulating its value onto `acc`; also counts
the digits read. -/
def scanDigits : List Char → Nat → Nat → Nat × Nat × List Char
  | [], acc, cnt => (acc, cnt, [])
  | c :: cs, acc, cnt =>
    if isDigit c then scanDigits cs (acc * 10 + (c.toNat - 48)) (cnt + 1)
    else (acc, cnt, c :: cs)

/-- An optional sign: whether it is `-`, and the input after it. -/
def scanSign : List Char → Bool × List Char
  | [] => (false, [])
  | c :: cs => if c = '-' then (true, cs) else if c = '+' then (false, cs) else (false, c :: cs)

/-- The conversion `%d` of `fscanf`: white space, optional sign, at least one digit.
On a matching failure the conversion count stops; `none`. The value is the number
written; texts with a number beyond the range of `int` are outside the model. -/
def scanInt (inp : List Char) : Option (Int × List Char) :=
  let (neg, r) := scanSign (skipSpace inp)
  let (n, cnt, rest) := scanDigits r 0 0
  if cnt = 0 then none
  else some (if neg then -(n : Int) else (n : Int), rest)

/-- At most `w` leading characters that are not white space, and the input after them. -/
def takeToken : Nat → List Char → List Char × List Char
  | 0, inp => ([], inp)
  | _ + 1, [] => ([], [])
  | w + 1, c :: cs =>
    if isSpace c then ([], c :: cs)
    else ((c :: (takeToken w cs).1), (takeToken w cs).2)

/-- The conversion `%ws` of `fscanf` (`%49s`, `%19s`, `%29s`): white space, then at most
`w` characters up to the next white space; fails only at end of input. -/
def scanStr (w : Nat) (inp : List Char) : Option (String × List Char) :=
  let t := takeToken w (skipSpace inp)
  if t.1 = [] then none else some (String.mk t.1, t.2)

/-- The digits of a `%f` field after the sign: digits, optionally a point and more digits,
with at least one digit in all; the value is the exact rational written. On failure the
input is left after the characters consumed. -/
def scanMantissa (r : List Char) : Option ℚ × List Char :=
  let ip := scanDigits r 0 0
  match ip.2.2 with
  | '.' :: r2 =>
    let fp := scanDigits r2 0 0
    if ip.2.1 + fp.2.1 = 0 then (none, r2)
    else (some (mkRat ((ip.1 * 10 ^ fp.2.1 + fp.1 : Nat) : Int) (10 ^ fp.2.1)), fp.2.2)
  | r1 => if ip.2.1 = 0 then (none, r1) else (some (ip.1 : ℚ), r1)

/-- The conversion `%f` of `fscanf` on decimal notation: white space, optional sign, then
the digits; the value stored is the `float` nearest to the number written. Exponents,
hexadecimal notation, infinities and NaN, none of which `%.2f` prints for a finite number,
are not recognised. -/
def scanFloat (inp : List Char) : Option F32 × List Char :=
  let s := scanSign (skipSpace inp)
  let m := scanMantissa s.2
  (m.1.map (fun v => F32.round (if s.1 then -v else v)), m.2)

/-- The scalar fields of the local `Student s` after the header conversions. -/
structure RawHeader where
  roll : Int
  name : String
  branch : String
  semester : Int
  numSubjects : Int
  attendance : F32
deriving DecidableEq

/-- The six conversions `"%d %49s %19s %d %d %f"` of line 128; `none` when fewer than six
succeed. The arrays of the local `Student s` are not written here. -/
def scanHeader (inp : List Char) : Option (RawHeader × List Char) :=
  match scanInt inp with
  | none => none
  | some (roll, r1) =>
    match scanStr (NAME_LEN - 1) r1 with
    | none => none
    | some (name, r2) =>
      match scanStr 19 r2 with
      | none => none
      | some (branch, r3) =>
        match scanInt r3 with
        | none => none
        | some (semester, r4) =>
          match scanInt r4 with
          | none => none
          | some (numSubjects, r5) =>
            match scanFloat r5 with
            | (none, _) => none
            | (some attendance, r6) =>
              some ({ roll := roll, name := name, branch := branch, semester := semester,
                      numSubjects := numSubjects, attendance := attendance }, r6)

/-- One pass of the subject loop body (lines 134-137): `"%29s %f"`, replaced by the
sentinel `("NA", 0.0)` unless both conversions succeed. `%29s` fails only at end of input. -/
def scanSubject (inp : List Char) : (String × F32) × List Char :=
  match scanStr (SUBJ_LEN - 1) inp with
  | none => (("NA", F32.fin 0), [])
  | some (nm, r1) =>
    match scanFloat r1 with
    | (some m, r2) => ((nm, m), r2)
    | (none, r2) => (("NA", F32.fin 0), r2)

/-- The subject loop of `loadStudents` (lines 133-138), `n` iterations. -/
def scanSubjects : Nat → List Char → List (String × F32) × List Char
  | 0, inp => ([], inp)
  | n + 1, inp =>
    let first := scanSubject inp
    let others := scanSubjects n first.2
    (first.1 :: others.1, others.2)

/-- The clamping of `numSubjects` into `[0, MAX_SUBJECTS]` (lines 131-132). -/
def clampSubjects (n : Int) : Int :=
  let n1 := if n < 0 then 0 else n
  if n1 > (MAX_SUBJECTS : Int) then (MAX_SUBJECTS : Int) else n1

/-- The finite value of a `float`, if it has one. -/
def F32.toRat? : F32 → Option ℚ
  | F32.fin q => some q
  | _ => none

/-- The marks read, when all of them are finite. -/
def finiteMarks : List (String × F32) → Option (List ℚ)
  | [] => some []
  | (_, m) :: rest =>
    match m.toRat?, finiteMarks rest with
    | some q, some qs => some (q :: qs)
    | _, _ => none

/-- The record loop of `loadStudents` (lines 125-140) with `room = MAX_STUDENTS - studentCount`
iterations left. Slots of `subjectNames` and `marks` at index `numSubjects` and above are
never written by the loop (they are indeterminate in C) and are not represented. The result
is `none` when a number read exceeds the range of `float`: it is loaded as an infinity,
which `Student` does not represent. -/
def loadStudentsLoop : Nat → List Char → Option (List Student)
  | 0, _ => some []
  | room + 1, inp =>
    match scanHeader inp with
    | none => some []
    | some (h, r) =>
      let n := clampSubjects h.numSubjects
      let subs := scanSubjects n.toNat r
      match h.attendance.toRat?, finiteMarks subs.1, loadStudentsLoop room subs.2 with
      | some attendance, some marks, some rest =>
        some ({ roll := h.roll, name := h.name, branch := h.branch, semester := h.semester,
                numSubjects := n, subjectNames := subs.1.map Prod.fst, marks := marks,
                attendance := attendance } :: rest)
      | _, _, _ => none

/-- Embedding of `loadStudents` (lines 121-142) on an existing file with the given text:
the records left in `students[0 .. studentCount)`. -/
def loadStudents (text : List Char) : Option (List Student) :=
  loadStudentsLoop MAX_STUDENTS text

/-! ## Stores and session (lines 35-39, 159-169, 299-341, 381-426, 533-572) -/

/-- The global state of the program: the two in-memory collections, the `currentUser`
pointer (an index into `users`, `none` for `NULL`) and the text of the two data files
(`none` when the file does not exist). -/
structure State where
  users : List User
  students : List Student
  currentUser : Option Nat
  credentialFile : Option (List Char)
  studentFile : Option (List Char)
deriving DecidableEq

/-- The loop of `findUser` (lines 160-161) from index `i` on. -/
def findUserFrom : List User → String → Nat → Option Nat
  | [], _, _ => none
  | u :: rest, username, i =>
    if u.username = username then some i else findUserFrom rest username (i + 1)

/-- Embedding of `findUser` (lines 159-163): the index of the first account with that
username, `none` for `NULL`. -/
def findUser (users : List User) (username : String) : Option Nat :=
  findUserFrom users username 0

/-- The loop of `findStudentByRoll` (lines 166-167) from index `i` on. -/
def findStudentFrom : List Student → Int → Nat → Option Nat
  | [], _, _ => none
  | s :: rest, roll, i =>
    if s.roll = roll then some i else findStudentFrom rest roll (i + 1)

/-- Embedding of `findStudentByRoll` (lines 165-169). -/
def findStudentByRoll (students : List Student) (roll : Int) : Option Nat :=
  findStudentFrom students roll 0

/-- The credential check of `loginSystem` (lines 542-543):
`u = findUser(uname); u && strcmp(u->password, pass) == 0`. The result is the index of the
account logged in, or `none`. -/
def authenticate (users : List User) (uname pass : String) : Option Nat :=
  match findUser users uname with
  | none => none
  | some i =>
    match users[i]? with
    | none => none
    | some u => if u.password = pass then some i else none

/-- What `loginSystem` returns and leaves behind. -/
structure LoginResult where
  /-- The return value: 1 on success, 0 after the lockout message. -/
  ret : Int
  /-- The global state on return. -/
  state : State
  /-- The final value of the counter `attempts`. -/
  attempts : Nat
  /-- The credential pairs of the console input that were not read. -/
  unread : List (String × String)
  /-- The previous login shown by `"Last login: %s"`, on success. -/
  shownLastLogin : Option String
deriving DecidableEq

/-- The success branch of `loginSystem` (lines 544-563) for the account at index `i`;
`now` is the string `nowString` produces. Returns the new state and `oldLogin`. -/
def loginSuccess (now : String) (st : State) (i : Nat) : State × String :=
  match st.users[i]? with
  | none => (st, "")
  | some u =>
    let oldLogin0 : String := if u.lastLogin.data ≠ [] then u.lastLogin else "-"
    let oldLogin : String := if oldLogin0.data = [] ∨ oldLogin0 = "-" then "FIRST" else oldLogin0
    let u1 : User := { u with lastLogin := String.mk (oldLogin.data.take 19) }
    let u2 : User := { u1 with lastLogin := now }
    let users := st.users.set i u2
    ({ st with users := users, currentUser := some i,
               credentialFile := some (saveUsers users) }, oldLogin)

/-- The loop `while (attempts < 3)` of `loginSystem` (lines 535-569) with
`remaining = 3 - attempts` iterations left. Each iteration reads one (username, password)
pair; at end of input `readLine` yields empty strings. -/
def loginLoop (now : String) : Nat → Nat → State → List (String × String) → LoginResult
  | 0, attempts, st, inp =>
    { ret := 0, state := st, attempts := attempts, unread := inp, shownLastLogin := none }
  | remaining + 1, attempts, st, inp =>
    let uname := (inp.headD ("", "")).1
    let pass := (inp.headD ("", "")).2
    match authenticate st.users uname pass with
    | some i =>
      { ret := 1, state := (loginSuccess now st i).1, attempts := attempts,
        unread := inp.tail, shownLastLogin := some (loginSuccess now st i).2 }
    | none => loginLoop now remaining (attempts + 1) st inp.tail

/-- Embedding of `loginSystem` (lines 533-572). -/
def loginSystem (now : String) (st : State) (inp : List (String × String)) : LoginResult :=
  loginLoop now 3 0 st inp

/-- The effect of `strncpy(dst, src, n); dst[n] = '\0'` on `dst`. -/
def copyBounded (n : Nat) (src : String) : String := String.mk (src.data.take n)

/-- The three ways `createUser` can end, named after what it prints. -/
inductive CreateUserMsg where
  /-- The message `"User limit reached."`: the store is full (CapacityExceeded). -/
  | userLimitReached
  /-- The message `"User exists."`: the username is taken (DuplicateKey). -/
  | userExists
  /-- The account was inserted. -/
  | created
deriving DecidableEq

/-- Embedding of `createUser` (lines 399-426); `uname`, `pass`, `role` are the lines read. -/
def createUser (st : State) (uname pass role : String) : CreateUserMsg × State :=
  if st.users.length ≥ MAX_USERS then (CreateUserMsg.userLimitReached, st)
  else if (findUser st.users uname).isSome then (CreateUserMsg.userExists, st)
  else
    let u : User :=
      { username := copyBounded (NAME_LEN - 1) uname
        password := copyBounded (NAME_LEN - 1) pass
        role := copyBounded (ROLE_LEN - 1) role
        lastLogin := "-" }
    let users := st.users ++ [u]
    (CreateUserMsg.created,
      { st with users := users, credentialFile := some (saveUsers users) })

/-- The console answers `addStudent` reads (lines 307-335). `roll` is `none` when `readInt`
returns 0 on a blank line; `semester` and `numSubjects` are the values left in the zeroed
record by `readInt`; `attendance` and the marks are the `float`s that `(float)atof(tmp)`
stores; `subjects` are the answers to the per-subject prompts, in order. -/
structure StudentForm where
  roll : Option Int
  name : String
  branch : String
  semester : Int
  numSubjects : Int
  attendance : ℚ
  subjects : List (String × ℚ)
deriving DecidableEq

/-- The local record `s` of `addStudent` after the reads (lines 304-335): zeroed by
`memset`, `numSubjects` capped at `MAX_SUBJECTS`, the first `numSubjects` slots filled from
the answers (an answer missing at end of input reads as an empty line). -/
def StudentForm.toStudent (f : StudentForm) (roll : Int) : Student :=
  let n : Int := if f.numSubjects > (MAX_SUBJECTS : Int) then (MAX_SUBJECTS : Int) else f.numSubjects
  { roll := roll, name := f.name, branch := f.branch, semester := f.semester,
    numSubjects := n,
    subjectNames := (List.range MAX_SUBJECTS).map
      (fun (i : Nat) => if (i : Int) < n then (f.subjects.getD i ("", 0)).1 else ""),
    marks := (List.range MAX_SUBJECTS).map
      (fun (i : Nat) => if (i : Int) < n then (f.subjects.getD i ("", 0)).2 else 0),
    attendance := f.attendance }

/-- The four ways `addStudent` can end. -/
inductive AddStudentMsg where
  /-- The message `"Student limit reached."`: the store is full (CapacityExceeded). -/
  | studentLimitReached
  /-- No roll number was entered; the function returns silently. -/
  | noRoll
  /-- The message `"Roll already exists."` (DuplicateKey). -/
  | rollExists
  /-- The record was appended. -/
  | added
deriving DecidableEq

/-- Embedding of `addStudent` (lines 299-341). -/
def addStudent (st : State) (f : StudentForm) : AddStudentMsg × State :=
  if st.students.length ≥ MAX_STUDENTS then (AddStudentMsg.studentLimitReached, st)
  else
    match f.roll with
    | none => (AddStudentMsg.noRoll, st)
    | some roll =>
      if (findStudentByRoll st.students roll).isSome then (AddStudentMsg.rollExists, st)
      else
        let s := applyGrace (f.toStudent roll)
        let students := st.students ++ [s]
        (AddStudentMsg.added,
          { st with students := students, studentFile := some (saveStudents students) })

/-! ## Specification-side definitions -/

/-- The scan for the first account, from index `i` on, whose username and password both
equal the inputs. -/
def firstMatchFrom : List User → String → String → Nat → Option Nat
  | [], _, _, _ => none
  | u :: rest, uname, pass, i =>
    if u.username = uname ∧ u.password = pass then some i
    else firstMatchFrom rest uname pass (i + 1)

/-- Authentication as the specification words it: the first account in store order whose
username and password are both exactly equal to the inputs, or none. -/
def authenticateSpec (users : List User) (uname pass : String) : Option Nat :=
  firstMatchFrom users uname pass 0

/-- A store in which two accounts share the username `"asha"`. -/
def exDuplicateUsers : List User :=
  [ { username := "asha", password := "old", role := "student", lastLogin := "-" },
    { username := "asha", password := "new", role := "teacher", lastLogin := "-" } ]

/-- A store with two distinct accounts. -/
def exUsers : List User :=
  [ { username := "admin", password := "admin", role := "admin", lastLogin := "-" },
    { username := "asha", password := "s3cret", role := "student", lastLogin := "202401011200" } ]

/-- A state before login: two accounts, no student, nobody logged in. -/
def exState : State :=
  { users := exUsers, students := [], currentUser := none,
    credentialFile := some (saveUsers exUsers), studentFile := none }

/-- A store holding `MAX_USERS` accounts `u0 .. u49`. -/
def exFullUsers : List User :=
  (List.range MAX_USERS).map
    (fun i => { username := String.mk ('u' :: decimal i), password := "pw", role := "guest",
                lastLogin := "-" })

/-- The local struct `Stat` of `detectHardSubjects`. -/
structure Stat where
  name : String
  sum : F32
  count : Int
  fails : Int
deriving DecidableEq

/-- The capacity of the local table `Stat stats[100]`. -/
def STAT_CAP : Nat := 100

/-- The lookup loop (lines 244-249) from index `k` on: the first slot with that name. -/
def findStatFrom : List Stat → String → Nat → Option Nat
  | [], _, _ => none
  | st :: rest, name, k =>
    if st.name = name then some k else findStatFrom rest name (k + 1)

/-- The three updates of lines 257-259 on slot `stats[idx]`; the sum is a `float`
accumulation. -/
def bumpStat (m : ℚ) (st : Stat) : Stat :=
  { st with sum := F32.add st.sum (F32.fin m), count := st.count + 1,
            fails := if m < 40 then st.fails + 1 else st.fails }

/-- Applies `f` to slot `k` of the table. -/
def updateSlot (f : Stat → Stat) : Nat → List Stat → List Stat
  | _, [] => []
  | 0, st :: rest => f st :: rest
  | k + 1, st :: rest => st :: updateSlot f k rest

/-- The body of the inner loop (lines 243-259) for one (subjectName, mark) pair; the table
is `stats[0 .. statCount)`. When the name is new and the table is full, `idx` stays `-1` and
lines 257-259 access `stats[-1]`, outside the array: the behaviour is undefined, `none`. -/
def statStep (stats : List Stat) (name : String) (m : ℚ) : Option (List Stat) :=
  match findStatFrom stats name 0 with
  | some idx => some (updateSlot (bumpStat m) idx stats)
  | none =>
    if stats.length < STAT_CAP then
      some (updateSlot (bumpStat m) stats.length
        (stats ++ [{ name := name, sum := F32.fin 0, count := 0, fails := 0 }]))
    else none

/-- The loop over the subjects of one student (lines 242-260). -/
def aggregateStudent (acc : Option (List Stat)) (s : Student) : Option (List Stat) :=
  s.indices.foldl
    (fun acc j => acc.bind (fun stats => statStep stats (s.subjectName j) (s.mark j))) acc

/-- The aggregation pass over all students (lines 240-261), from the empty table. -/
def aggregate (students : List Student) : Option (List Stat) :=
  students.foldl aggregateStudent (some [])

/-- A printed line of the report: subject, fail percentage, average. -/
structure HardRow where
  name : String
  failPct : F32
  avg : F32
deriving DecidableEq

/-- The row printed for a table slot, if any (lines 266-270): `avg` and `failp` are
computed in `float`, the `int` counts being converted. -/
def reportRow (st : Stat) : Option HardRow :=
  let avg : F32 := F32.div st.sum (F32.ofInt st.count)
  let failp : F32 := F32.div (F32.mul (F32.ofInt st.fails) (F32.fin 100)) (F32.ofInt st.count)
  if F32.lt (F32.fin 30) failp = true ∧ F32.lt avg (F32.fin 40) = true then
    some { name := st.name, failPct := failp, avg := avg }
  else none

/-- Embedding of `detectHardSubjects` (lines 229-272): the report lines in print order,
or `none` when the pass leaves the bounds of the table. -/
def detectHardSubjects (students : List Student) : Option (List HardRow) :=
  (aggregate students).map (fun stats => stats.filterMap reportRow)

/-! ### Specification of the report -/

/-- Every (subjectName, mark) pair of every record, in the order of the pass. -/
def subjectPairs : List Student → List (String × ℚ)
  | [] => []
  | s :: rest => s.indices.map (fun j => (s.subjectName j, s.mark j)) ++ subjectPairs rest

/-- The distinct elements of a list, in the order in which each was first seen. -/
def firstSeen (l : List String) : List String :=
  l.foldl (fun seen x => if x ∈ seen then seen else seen ++ [x]) []

/-- The marks recorded under subject `name`, by exact string equality. -/
def marksOf (pairs : List (String × ℚ)) (name : String) : List ℚ :=
  (pairs.filter (fun p => p.1 = name)).map Prod.snd

/-- Whether subject `name` is hard in exact arithmetic:
`failPct = 100 * failCount / count > 30` and `avg = sum / count < 40`. -/
def isHardExact (pairs : List (String × ℚ)) (name : String) : Prop :=
  let ms := marksOf pairs name
  let count : ℚ := (ms.length : ℚ)
  let failCount : ℚ := ((ms.filter (fun m => m < 40)).length : ℚ)
  100 * failCount / count > 30 ∧ ms.sum / count < 40

instance isHardExact.decidable (pairs : List (String × ℚ)) (name : String) :
    Decidable (isHardExact pairs name) := by
  unfold isHardExact
  infer_instance

/-- The subjects to report when the statistics are exact numbers: the hard subjects among
the distinct subject names, in first-seen order. -/
def hardSubjectNamesExact (students : List Student) : List String :=
  (firstSeen ((subjectPairs students).map Prod.fst)).filter
    (fun name => decide (isHardExact (subjectPairs students) name))

/-- The `float` sum of a list of marks, accumulated in order from `0`. -/
def floatSum (ms : List ℚ) : F32 := ms.foldl (fun total m => F32.add total (F32.fin m)) (F32.fin 0)

/-- The report line for subject `name`, if it is a hard subject, with the statistics in
`float`: `avg` is the `float` sum of the subject's marks in pass order divided by their
count, `failPct` is `failCount * 100` divided by the count; the line is due when
`failPct > 30` and `avg < 40`. -/
def specRow (pairs : List (String × ℚ)) (name : String) : Option HardRow :=
  let ms := marksOf pairs name
  let count : Int := (ms.length : Int)
  let failCount : Int := ((ms.filter (fun m => m < 40)).length : Int)
  let avg : F32 := F32.div (floatSum ms) (F32.ofInt count)
  let failPct : F32 := F32.div (F32.mul (F32.ofInt failCount) (F32.fin 100)) (F32.ofInt count)
  if F32.lt (F32.fin 30) failPct = true ∧ F32.lt avg (F32.fin 40) = true then
    some { name := name, failPct := failPct, avg := avg }
  else none

/-- The report with `float` statistics: the hard subjects among the distinct subject
names, in first-seen order. -/
def hardSubjectsSpec (students : List Student) : List HardRow :=
  (firstSeen ((subjectPairs students).map Prod.fst)).filterMap
    (specRow (subjectPairs students))

/-- The table slot that aggregates the pairs of subject `name`. -/
def statOf (pairs : List (String × ℚ)) (name : String) : Stat :=
  { name := name, sum := floatSum (marksOf pairs name),
    count := ((marksOf pairs name).length : Int),
    fails := (((marksOf pairs name).filter (fun m => m < 40)).length : Int) }

/-- A student with the single subject "Math". -/
def exMathStudent (roll : Int) (m : ℚ) : Student :=
  { roll := roll, name := "Asha", branch := "CSE", semester := 1, numSubjects := 1,
    subjectNames := ["Math"], marks := [m], attendance := 90 }

/-- Five students whose "Math" marks are the `float`s nearest to 39.14, 39.90, 39.80,
40.68 and 40.48; the exact average of the five `float`s is 40. -/
def exFloatCohort : List Student :=
  [exMathStudent 1 (mkRat 2565079 65536), exMathStudent 2 (mkRat 5229773 131072),
    exMathStudent 3 (mkRat 10433331 262144), exMathStudent 4 (mkRat 5332009 131072),
    exMathStudent 5 (mkRat 10611589 262144)]

/-- Three students: "Math" has the marks 30, 35, 38 and "Art" the marks 90, 85. -/
def exCohort : List Student :=
  [ { roll := 1, name := "Asha", branch := "CSE", semester := 1, numSubjects := 2,
      subjectNames := ["Math", "Art"], marks := [30, 90], attendance := 90 },
    { roll := 2, name := "Ravi", branch := "CSE", semester := 1, numSubjects := 2,
      subjectNames := ["Math", "Art"], marks := [35, 85], attendance := 80 },
    { roll := 3, name := "Meera", branch := "CSE", semester := 1, numSubjects := 1,
      subjectNames := ["Math"], marks := [38], attendance := 70 } ]

/-- Student number `i` of `exManySubjects`: ten subjects named `s(10 i) .. s(10 i + 9)`,
all with mark 30. -/
def exManyStudent (i : Nat) : Student :=
  { roll := (i : Int), name := "Asha", branch := "CSE", semester := 1, numSubjects := 10,
    subjectNames := (List.range 10).map (fun (j : Nat) => String.mk ('s' :: decimal (10 * i + j))),
    marks := List.replicate 10 30, attendance := 90 }

/-- Eleven students with ten subjects each, 110 distinct subject names in all. -/
def exManySubjects : List Student := (List.range 11).map exManyStudent

/-! ### Records that the text format can hold -/

/-- A string that `%s` writes and `%ws` reads back whole: not empty, at most `w`
characters, none of them white space. -/
def isToken (w : Nat) (s : String) : Prop :=
  s.data ≠ [] ∧ s.data.length ≤ w ∧ ∀ c ∈ s.data, isSpace c = false

/-- The number `%.2f` writes for `q`: `q` rounded to hundredths, ties to even. -/
def textValue (q : ℚ) : ℚ :=
  if q < 0 then -(mkRat ((roundHundredths q : Nat) : Int) 100)
  else mkRat ((roundHundredths q : Nat) : Int) 100

/-- The `float` `q` is read back from its own text: it is the `float` nearest to the
two-decimal number `%.2f` writes for it. -/
def reloads (q : ℚ) : Prop := F32.round (textValue q) = F32.fin q

/-- A record the student file can hold: `numSubjects` within `[0, MAX_SUBJECTS]` and within
the slots present; name, branch and the subject names in use are tokens that fit their
arrays (`char[50]`, `char[20]`, `char[30]`); attendance and the marks in use are `float`s
read back from their text. -/
def Student.storable (s : Student) : Prop :=
  0 ≤ s.numSubjects ∧ s.numSubjects ≤ (MAX_SUBJECTS : Int) ∧
  s.numSubjects.toNat ≤ s.subjectNames.length ∧ s.numSubjects.toNat ≤ s.marks.length ∧
  isToken (NAME_LEN - 1) s.name ∧ isToken 19 s.branch ∧ reloads s.attendance ∧
  ∀ j, j < s.numSubjects.toNat →
    isToken (SUBJ_LEN - 1) (s.subjectName j) ∧ reloads (s.mark j)

/-- The record restricted to the slots in use: the first `numSubjects` subject names and
marks. Slots beyond them are read by no function of the program. -/
def Student.inUse (s : Student) : Student :=
  { s with subjectNames := s.subjectNames.take s.numSubjects.toNat,
           marks := s.marks.take s.numSubjects.toNat }

/-- A record without subjects whose name contains a space, as `readLine` accepts it. -/
def exSpacedName : Student :=
  { roll := 8, name := "Ann Lee", branch := "CSE", semester := 3, numSubjects := 0,
    subjectNames := [], marks := [], attendance := 90 }

/-- A record with a mark of three decimals (`0.125` is a `float`). -/
def exThreeDecimals : Student :=
  { roll := 9, name := "Ann", branch := "CSE", semester := 3, numSubjects := 1,
    subjectNames := ["Math"], marks := [mkRat 1 8], attendance := 90 }

/-- A record with ten subjects; the fourth mark is the `float` 39.99f and the attendance
the `float` 92.55f. -/
def exTenSubjects : Student :=
  { roll := -10, name := "Zoya", branch := "ECE", semester := 8, numSubjects := 10,
    subjectNames := ["S0", "S1", "S2", "S3", "S4", "S5", "S6", "S7", "S8", "S9"],
    marks := [0, 100, mkRat 7 2, mkRat 10483139 262144, 40, 55, mkRat (-1) 4, 73, 88, 91],
    attendance := mkRat 6065357 65536 }

/-- A small store: no subjects, two subjects, ten subjects. -/
def exStore : List Student := [exNoSubjects, exSingleFail, exTenSubjects]

instance Student.decidableStorable (s : Student) : Decidable s.storable := by
  unfold Student.storable isToken reloads
  infer_instance

/-- A record as `addStudent` builds it: two subjects in use out of the ten zeroed slots. -/
def exTenSlots : Student :=
  { roll := 11, name := "Asha", branch := "CSE", semester := 3, numSubjects := 2,
    subjectNames := ["Math", "Art", "", "", "", "", "", "", "", ""],
    marks := [40, 50, 0, 0, 0, 0, 0, 0, 0, 0], attendance := 90 }

/-! ## Password reset, bootstrap account and runs of operations (lines 381-397, 574-587) -/

/-- The two ways `resetPassword` can end. -/
inductive ResetPasswordMsg where
  /-- The message `"User not found."` (NotFound). -/
  | userNotFound
  /-- The password was overwritten in place. -/
  | reset
deriving DecidableEq

/-- Embedding of `resetPassword` (lines 381-397); `uname` and `newpass` are the lines read.
The index `findUser` returns is always a slot of the store. -/
def resetPassword (st : State) (uname newpass : String) : ResetPasswordMsg × State :=
  match findUser st.users uname with
  | none => (ResetPasswordMsg.userNotFound, st)
  | some i =>
    match st.users[i]? with
    | none => (ResetPasswordMsg.userNotFound, st)
    | some u =>
      let users := st.users.set i { u with password := copyBounded (NAME_LEN - 1) newpass }
      (ResetPasswordMsg.reset,
        { st with users := users, credentialFile := some (saveUsers users) })

/-- The default account `main` creates (lines 580-583). -/
def defaultAdmin : User :=
  { username := "admin", password := "admin", role := "admin", lastLogin := "-" }

/-- The bootstrap step of `main` (lines 579-587): when no account was loaded, the default
admin/admin account is created and saved. -/
def bootstrap (st : State) : State :=
  if st.users.length = 0 then
    { st with users := [defaultAdmin], credentialFile := some (saveUsers [defaultAdmin]) }
  else st

/-- The state with both stores empty, nobody logged in, and the given files on disk. -/
def emptyState (credentialFile studentFile : Option (List Char)) : State :=
  { users := [], students := [], currentUser := none,
    credentialFile := credentialFile, studentFile := studentFile }

/-- The operations that change the stores, each with the console input it reads. -/
inductive Op where
  /-- A call of `createUser` reading username, password and role. -/
  | createUser (uname pass role : String)
  /-- A call of `resetPassword` reading username and new password. -/
  | resetPassword (uname newpass : String)
  /-- A call of `loginSystem` at time stamp `now` reading the given attempts. -/
  | login (now : String) (attempts : List (String × String))
  /-- A call of `addStudent` reading the given answers. -/
  | addStudent (form : StudentForm)
deriving DecidableEq

/-- The state after one operation. -/
def step (st : State) : Op → State
  | Op.createUser uname pass role => (createUser st uname pass role).2
  | Op.resetPassword uname newpass => (resetPassword st uname newpass).2
  | Op.login now attempts => (loginSystem now st attempts).state
  | Op.addStudent form => (addStudent st form).2

/-- The state after a sequence of operations, first to last. -/
def run (st : State) (ops : List Op) : State := ops.foldl step st

/-- The username `createUser` reads is held by `char uname[NAME_LEN]`, filled by
`readLine(uname, sizeof(uname))`: it has at most `NAME_LEN - 1` characters. The other
inputs are not constrained. -/
def Op.fitsBuffer : Op → Prop
  | Op.createUser uname _ _ => uname.length ≤ NAME_LEN - 1
  | _ => True

instance Op.decidableFitsBuffer (op : Op) : Decidable op.fitsBuffer := by
  cases op <;> unfold Op.fitsBuffer <;> infer_instance

/-- The uniqueness and capacity invariant of the two stores: no two accounts share a
username, no two student records share a roll, at most `MAX_USERS` accounts and at most
`MAX_STUDENTS` records. -/
def StoreInvariant (st : State) : Prop :=
  (st.users.map User.username).Nodup ∧ (st.students.map Student.roll).Nodup ∧
    st.users.length ≤ MAX_USERS ∧ st.students.length ≤ MAX_STUDENTS

/-- A new student whose marks all pass. -/
def exFormPassing : StudentForm :=
  { roll := some 12, name := "Ravi", branch := "ECE", semester := 2, numSubjects := 2,
    attendance := 85, subjects := [("Math", 60), ("Art", 70)] }

/-- Sixty requests to create the accounts `u0 .. u59`. -/
def exManyCreates : List Op :=
  (List.range 60).map (fun (i : Nat) => Op.createUser (String.mk ('u' :: decimal i)) "pw" "guest")

/-- A session: an account is created, a second request for the same username is made, its
password is reset, the administrator logs in, a student is added and entered again. -/
def exSession : List Op :=
  [Op.createUser "ravi" "pw" "teacher", Op.createUser "ravi" "pw2" "guest",
   Op.resetPassword "ravi" "new", Op.login "202410301200" [("admin", "admin")],
   Op.addStudent exFormPassing, Op.addStudent exFormPassing]

/-! ## Grade engine: lemmas -/

theorem foldl_add_eq_sum {α : Type} (f : α → ℚ) (l : List α) (a : ℚ) :
    l.foldl (fun t i => t + f i) a = a + (l.map f).sum := by
  induction l generalizing a with
  | nil => simp
  | cons x xs ih => simp [ih, add_assoc]

theorem sumMarks_eq_sum (s : Student) : sumMarks s = (s.indices.map s.mark).sum := by
  unfold sumMarks
  rw [foldl_add_eq_sum]
  simp

/-- The scan over the first `n` slots when slot `k` is the only failing one. -/
theorem graceScan_range_single (s : Student) (k n : Nat)
    (hfail : s.mark k < passMark)
    (hothers : ∀ j : Nat, j < n → j ≠ k → ¬ s.mark j < passMark) :
    (List.range n).foldl (graceStep s) (0, -1) = if k < n then (1, (k : Int)) else (0, -1) := by
  induction n with
  | zero => simp
  | succ n ih =>
    have ih2 := ih (fun j hj hne => hothers j (Nat.lt_succ_of_lt hj) hne)
    rw [List.range_succ, List.foldl_append, ih2]
    by_cases hkn : k < n
    · have hne : n ≠ k := by omega
      have hn := hothers n (Nat.lt_succ_self n) hne
      simp [graceStep, hn, hkn, Nat.lt_succ_of_lt hkn]
    · by_cases hkeq : k = n
      · subst hkeq
        simp [graceStep, hfail]
      · have hne : n ≠ k := fun h => hkeq h.symm
        have hn := hothers n (Nat.lt_succ_self n) hne
        have hk1 : ¬ k < n + 1 := by omega
        simp [graceStep, hn, hkn, hk1]

/-- The scan counts the failing slots. -/
theorem graceScan_fst (s : Student) (l : List Nat) (st : Int × Int) :
    (l.foldl (graceStep s) st).1 = st.1 + ((l.filter (fun i => s.mark i < passMark)).length : Int) := by
  induction l generalizing st with
  | nil => simp
  | cons x xs ih =>
    rw [List.foldl_cons, ih]
    by_cases hx : s.mark x < passMark
    · simp [graceStep, hx]; ring
    · simp [graceStep, hx]

theorem graceScan_fails (s : Student) : (graceScan s).1 = (failCount s : Int) := by
  unfold graceScan failCount
  rw [graceScan_fst]
  simp [passMark]

theorem countBacklogs_eq (s : Student) : countBacklogs s = (failCount s : Int) := by
  unfold countBacklogs failCount
  generalize s.indices = l
  suffices h : ∀ c : Int, l.foldl (fun c i => if s.mark i < 40 then c + 1 else c) c
      = c + ((l.filter (fun i => s.mark i < 40)).length : Int) by
    simpa using h 0
  induction l with
  | nil => simp
  | cons x xs ih =>
    intro c
    rw [List.foldl_cons, ih]
    by_cases hx : s.mark x < 40
    · simp [hx]; ring
    · simp [hx]
/-- C1: when exactly one subject `k` of the record fails (mark below 40) and `d = 40 - mark`,
`applyGrace` raises that mark to exactly 40 if and only if `d ≤ 5` or (the average of the
record's marks is at least 75 and `d ≤ 3`); if so the result is the record with slot `k` set
to 40, if not the record is returned unchanged; every other mark (and, by the record
equalities, every other field) is unchanged in both cases. -/
theorem applyGrace_single_failure (s : Student) (k : Nat)
    (hk : (k : Int) < s.numSubjects) (hfail : s.mark k < 40)
    (hothers : ∀ j : Nat, (j : Int) < s.numSubjects → j ≠ k → ¬ s.mark j < 40) :
    ((applyGrace s).mark k = 40 ↔
      (40 - s.mark k ≤ 5 ∨
        ((s.indices.map s.mark).sum / (s.numSubjects : ℚ) ≥ 75 ∧ 40 - s.mark k ≤ 3))) ∧
    ((40 - s.mark k ≤ 5 ∨
        ((s.indices.map s.mark).sum / (s.numSubjects : ℚ) ≥ 75 ∧ 40 - s.mark k ≤ 3)) →
      applyGrace s = { s with marks := s.marks.set k 40 }) ∧
    (¬ (40 - s.mark k ≤ 5 ∨
        ((s.indices.map s.mark).sum / (s.numSubjects : ℚ) ≥ 75 ∧ 40 - s.mark k ≤ 3)) →
      applyGrace s = s) ∧
    (∀ j : Nat, j ≠ k → (applyGrace s).mark j = s.mark j) := by
  have hpos : ¬ s.numSubjects ≤ 0 := by omega
  have hkn : k < s.numSubjects.toNat := by omega
  have hscan : graceScan s = (1, (k : Int)) := by
    unfold graceScan Student.indices
    rw [graceScan_range_single s k s.numSubjects.toNat hfail
      (fun j hj hne => hothers j (by omega) hne)]
    simp [hkn]
  have happ : applyGrace s =
      if (40 - s.mark k ≤ 5 ∨
        ((s.indices.map s.mark).sum / (s.numSubjects : ℚ) ≥ 75 ∧ 40 - s.mark k ≤ 3))
      then { s with marks := s.marks.set k 40 } else s := by
    have hneed : passMark - s.mark k > 0 := by unfold passMark; linarith
    simp only [applyGrace, hpos, hscan, if_false, sumMarks_eq_sum, Int.toNat_ofNat]
    simp only [hneed, true_and, passMark]
    simp [hfail]
  have hklen : 40 - s.mark k ≤ 5 → k < s.marks.length := by
    intro h
    by_contra hlen
    have : s.mark k = 0 := by
      unfold Student.mark
      simp [List.getElem?_eq_none (Nat.le_of_not_lt hlen)]
    rw [this] at h
    norm_num at h
  by_cases hg : (40 - s.mark k ≤ 5 ∨
        ((s.indices.map s.mark).sum / (s.numSubjects : ℚ) ≥ 75 ∧ 40 - s.mark k ≤ 3))
  · have hd5 : 40 - s.mark k ≤ 5 := by
      rcases hg with h | ⟨_, h⟩
      · exact h
      · linarith
    have hlen := hklen hd5
    rw [happ, if_pos hg]
    refine ⟨⟨fun _ => hg, fun _ => ?_⟩, ?_, ?_, ?_⟩
    · simp [Student.mark, hlen]
    · intro _; rfl
    · intro h; exact absurd hg h
    · intro j hj
      simp [Student.mark, List.getD_eq_getElem?_getD, List.getElem?_set, Ne.symm hj]
  · rw [happ, if_neg hg]
    refine ⟨?_, ?_, ?_, ?_⟩
    · constructor
      · intro h; rw [h] at hfail; exact absurd hfail (lt_irrefl _)
      · intro h; exact absurd h hg
    · intro h; exact absurd h hg
    · intro _; rfl
    · intro j _; rfl

/-- C1 witness: in `exSingleFail` the single failing mark 38 becomes 40. -/
theorem applyGrace_single_failure_witness :
    exSingleFail.mark 0 = 38 ∧ (applyGrace exSingleFail).mark 0 = 40 ∧
      applyGrace exSingleFail = { exSingleFail with marks := [40, 50] } := by
  have h := applyGrace_single_failure exSingleFail 0 (by decide)
    (by norm_num [exSingleFail, Student.mark])
    (by
      intro j hj hne
      have hj1 : j = 1 := by
        simp only [exSingleFail] at hj
        omega
      subst hj1
      norm_num [exSingleFail, Student.mark])
  have hg : (40 - exSingleFail.mark 0 ≤ 5 ∨
      ((exSingleFail.indices.map exSingleFail.mark).sum / (exSingleFail.numSubjects : ℚ) ≥ 75 ∧
        40 - exSingleFail.mark 0 ≤ 3)) := by
    left
    norm_num [exSingleFail, Student.mark]
  refine ⟨by norm_num [exSingleFail, Student.mark], h.1.2 hg, ?_⟩
  rw [h.2.1 hg]
  rfl

/-- C2: when the number of subjects with mark below 40 is not exactly 1 (zero, or two or
more), `applyGrace` returns the record unchanged; in particular the marks 35 and 38 of
`exTwoFails` both stay as they are. -/
theorem applyGrace_not_single_failure (s : Student) (h : failCount s ≠ 1) :
    applyGrace s = s := by
  unfold applyGrace
  by_cases hn : s.numSubjects ≤ 0
  · simp [hn]
  · have hf : ¬ (graceScan s).1 = 1 := by
      rw [graceScan_fails]
      exact_mod_cast h
    simp [hn, hf]

theorem exTwoFails_failCount : failCount exTwoFails = 2 := by
  norm_num [failCount, exTwoFails, Student.indices, Student.mark, List.range_succ, List.filter]

/-- C2 witness: the record with marks 35 and 38 has two failing subjects and is unchanged. -/
theorem applyGrace_not_single_failure_witness :
    failCount exTwoFails ≠ 1 ∧ applyGrace exTwoFails = exTwoFails ∧
      (applyGrace exTwoFails).marks = [35, 38] :=
  have h : failCount exTwoFails ≠ 1 := by rw [exTwoFails_failCount]; decide
  ⟨h, applyGrace_not_single_failure exTwoFails h,
    by rw [applyGrace_not_single_failure exTwoFails h]; rfl⟩

theorem exSem3_failCount : failCount exSem3 = 5 := by
  norm_num [failCount, exSem3, Student.indices, Student.mark, List.range_succ, List.filter]

theorem exSem7_failCount : failCount exSem7 = 5 := by
  norm_num [failCount, exSem7, exSem3, Student.indices, Student.mark, List.range_succ,
    List.filter]

theorem exBacklogs_failCount : failCount exBacklogs = 2 := by
  norm_num [failCount, exBacklogs, Student.indices, Student.mark, List.range_succ, List.filter]

theorem wrapInt_of_range (z : Int) (h1 : INT_MIN ≤ z) (h2 : z ≤ INT_MAX) : wrapInt z = z := by
  unfold wrapInt
  unfold INT_MIN at h1
  unfold INT_MAX at h2
  omega

theorem failCount_le (s : Student) : failCount s ≤ s.numSubjects.toNat := by
  unfold failCount
  calc (s.indices.filter (fun i => s.mark i < 40)).length
      ≤ s.indices.length := List.length_filter_le _ _
    _ = s.numSubjects.toNat := by simp [Student.indices]

theorem estimateGraduation_eq (s : Student) (hn : s.numSubjects ≤ (MAX_SUBJECTS : Int))
    (hlo : INT_MIN + 10 ≤ s.semester) (hhi : s.semester ≤ INT_MAX) :
    estimateGraduation s =
      { backlogs := (failCount s : Int)
        neededSem := ⌈((failCount s : Int) : ℚ) / 2⌉
        remainingSem := 8 - s.semester + 1
        verdict :=
          if failCount s = 0 then Verdict.onTrack
          else if ⌈((failCount s : Int) : ℚ) / 2⌉ ≤ 8 - s.semester + 1 then Verdict.canGraduate
          else Verdict.mayNotGraduate } := by
  have hf : (failCount s : Int) ≤ 10 := by
    have := failCount_le s
    unfold MAX_SUBJECTS at hn
    omega
  have hf0 : (0 : Int) ≤ (failCount s : Int) := Int.natCast_nonneg _
  have hceil : ((failCount s : Int) + 2 - 1) / 2 = ⌈((failCount s : Int) : ℚ) / 2⌉ := by
    symm
    rw [Int.ceil_eq_iff]
    have h1 := Int.emod_add_ediv ((failCount s : Int) + 2 - 1) 2
    have h2 := Int.emod_nonneg ((failCount s : Int) + 2 - 1) (by norm_num : (2 : Int) ≠ 0)
    have h3 := Int.emod_lt_of_pos ((failCount s : Int) + 2 - 1) (by norm_num : (0 : Int) < 2)
    constructor
    · have : ((((failCount s : Int) + 2 - 1) / 2 : Int) : ℚ) * 2 < (failCount s : Int) + 2 := by
        exact_mod_cast (by omega : (((failCount s : Int) + 2 - 1) / 2) * 2 < (failCount s : Int) + 2)
      linarith
    · have : ((failCount s : Int) : ℚ) ≤ ((((failCount s : Int) + 2 - 1) / 2 : Int) : ℚ) * 2 := by
        exact_mod_cast (by omega : (failCount s : Int) ≤ (((failCount s : Int) + 2 - 1) / 2) * 2)
      linarith
  have hneed : Int.tdiv (wrapInt (wrapInt ((failCount s : Int) + 2) - 1)) 2 =
      ((failCount s : Int) + 2 - 1) / 2 := by
    rw [wrapInt_of_range ((failCount s : Int) + 2) (by unfold INT_MIN; omega)
      (by unfold INT_MAX; omega)]
    rw [wrapInt_of_range ((failCount s : Int) + 2 - 1) (by unfold INT_MIN; omega)
      (by unfold INT_MAX; omega)]
    exact Int.tdiv_eq_ediv (by omega) (by norm_num)
  have hrem : wrapInt (wrapInt (8 - s.semester) + 1) = 8 - s.semester + 1 := by
    unfold INT_MIN at hlo
    unfold INT_MAX at hhi
    rw [wrapInt_of_range (8 - s.semester) (by unfold INT_MIN; omega) (by unfold INT_MAX; omega)]
    rw [wrapInt_of_range (8 - s.semester + 1) (by unfold INT_MIN; omega)
      (by unfold INT_MAX; omega)]
  unfold estimateGraduation
  simp only [countBacklogs_eq, hneed, hrem, hceil, Int.natCast_eq_zero]

/-- C4 (as stated) fails: `exSemOverflow` has one backlog and semester `-2147483639`, an
`int` that `readInt` accepts. Line 213 computes `8 - semester = 2147483647` and the `+ 1`
leaves the range of `int`: the code gets `remainingSem = -2147483648` and prints "May not
graduate in time", where the claim has `remainingSemesters = 2147483648`, not below the one
semester needed, and the verdict "can graduate in time". -/
theorem estimateGraduation_overflow_counterexample :
    INT_MIN ≤ exSemOverflow.semester ∧ exSemOverflow.semester ≤ INT_MAX ∧
      (estimateGraduation exSemOverflow).backlogs = 1 ∧
      (estimateGraduation exSemOverflow).neededSem = 1 ∧
      (estimateGraduation exSemOverflow).remainingSem = -2147483648 ∧
      (estimateGraduation exSemOverflow).remainingSem ≠ 8 - exSemOverflow.semester + 1 ∧
      (estimateGraduation exSemOverflow).neededSem ≤ 8 - exSemOverflow.semester + 1 ∧
      (estimateGraduation exSemOverflow).verdict = Verdict.mayNotGraduate ∧
      (estimateGraduation exSemOverflow).verdict ≠ Verdict.canGraduate := by
  decide

/-- C4 (amended): for every student record with at most 10 subjects whose semester is an
`int` of at least `-2147483638` (so that `8 - semester + 1` stays within `int`), with
`backlogs` the number of subjects with mark below 40, `estimateGraduation` computes
`neededSemesters = ceil(backlogs / 2)` and `remainingSemesters = 8 - semester + 1`, and its
verdict is "on track" if `backlogs = 0`, otherwise "can graduate in time" if
`neededSemesters ≤ remainingSemesters`, otherwise "may not graduate in time". The function
only returns the forecast: the record, passed by `const` pointer, is not written. -/
theorem estimateGraduation_spec (s : Student) (hn : s.numSubjects ≤ (MAX_SUBJECTS : Int))
    (hlo : -2147483638 ≤ s.semester) (hhi : s.semester ≤ 2147483647) :
    (estimateGraduation s).backlogs = (failCount s : Int) ∧
      (estimateGraduation s).neededSem = ⌈((failCount s : Int) : ℚ) / 2⌉ ∧
      (estimateGraduation s).remainingSem = 8 - s.semester + 1 ∧
      (estimateGraduation s).verdict =
        if failCount s = 0 then Verdict.onTrack
        else if ⌈((failCount s : Int) : ℚ) / 2⌉ ≤ 8 - s.semester + 1 then Verdict.canGraduate
        else Verdict.mayNotGraduate := by
  rw [estimateGraduation_eq s hn (by unfold INT_MIN; omega) (by unfold INT_MAX; omega)]
  exact ⟨rfl, rfl, rfl, rfl⟩

/-- C4 witness: semester 3 with 5 backlogs gives needed 3, remaining 6, "can graduate in
time"; semester 7 with 5 backlogs gives needed 3, remaining 2, "may not graduate in time";
the marks 30, 50, 39 give 2 backlogs. -/
theorem estimateGraduation_spec_witness :
    ((estimateGraduation exSem3).backlogs = (failCount exSem3 : Int) ∧
      (estimateGraduation exSem3).remainingSem = 8 - exSem3.semester + 1) ∧
    estimateGraduation exSem3 =
      { backlogs := 5, neededSem := 3, remainingSem := 6, verdict := Verdict.canGraduate } ∧
    estimateGraduation exSem7 =
      { backlogs := 5, neededSem := 3, remainingSem := 2, verdict := Verdict.mayNotGraduate } ∧
    (estimateGraduation exBacklogs).backlogs = 2 ∧
    countBacklogs exBacklogs = 2 :=
  have h := estimateGraduation_spec exSem3 (by decide) (by decide) (by decide)
  ⟨⟨h.1, h.2.2.1⟩, by decide, by decide, by decide, by decide⟩

/-! ## `float` arithmetic: lemmas -/

theorem ratAdd_eq (a b : ℚ) : ratAdd a b = a + b := by
  unfold ratAdd
  rw [Rat.add_def']

theorem ratMul_eq (a b : ℚ) : ratMul a b = a * b := by
  unfold ratMul
  rw [Rat.mkRat_eq_div]
  conv_rhs => rw [← Rat.num_div_den a, ← Rat.num_div_den b]
  push_cast
  rw [div_mul_div_comm]

theorem ratDiv_eq (a b : ℚ) : ratDiv a b = a / b := by
  unfold ratDiv
  rw [Rat.mkRat_eq_div]
  by_cases hb : b = 0
  · simp [hb]
  · have hbn : (b.num : ℚ) ≠ 0 := by exact_mod_cast Rat.num_ne_zero.mpr hb
    have hbd : (b.den : ℚ) ≠ 0 := by exact_mod_cast b.den_nz
    have had : (a.den : ℚ) ≠ 0 := by exact_mod_cast a.den_nz
    conv_rhs => rw [← Rat.num_div_den a, ← Rat.num_div_den b]
    rcases lt_or_gt_of_ne (Rat.num_ne_zero.mpr hb) with hneg | hpos
    · have hab : ((b.num.natAbs : ℕ) : ℚ) = -(b.num : ℚ) := by
        rw [Nat.cast_natAbs, Int.cast_abs, abs_of_neg (by exact_mod_cast hneg)]
      rw [Int.sign_eq_neg_one_of_neg hneg]
      push_cast
      rw [hab]
      field_simp
    · have hab : ((b.num.natAbs : ℕ) : ℚ) = (b.num : ℚ) := by
        rw [Nat.cast_natAbs, Int.cast_abs, abs_of_pos (by exact_mod_cast hpos)]
      rw [Int.sign_eq_one_of_pos hpos]
      push_cast
      rw [hab]
      field_simp

theorem F32_add_fin (a b : ℚ) : F32.add (F32.fin a) (F32.fin b) = F32.round (a + b) := by
  simp only [F32.add, ratAdd_eq]

theorem F32_mul_fin (a b : ℚ) : F32.mul (F32.fin a) (F32.fin b) = F32.round (a * b) := by
  simp only [F32.mul, ratMul_eq]

theorem F32_div_fin (a b : ℚ) (hb : b ≠ 0) :
    F32.div (F32.fin a) (F32.fin b) = F32.round (a / b) := by
  simp only [F32.div, hb, if_false, ratDiv_eq]

/-- A `float` accumulation whose partial sums are all `float`s is the exact sum. -/
theorem foldl_F32_add_exact (f : Nat → ℚ) (n : Nat)
    (h : ∀ k, k ≤ n → isF32 (((List.range k).map f).sum)) :
    (List.range n).foldl (fun total i => F32.add total (F32.fin (f i))) (F32.fin 0) =
      F32.fin (((List.range n).map f).sum) := by
  induction n with
  | zero => simp
  | succ n ih =>
    rw [List.range_succ, List.foldl_append, ih (fun k hk => h k (Nat.le_succ_of_le hk))]
    simp only [List.foldl_cons, List.foldl_nil, F32_add_fin]
    have := h (n + 1) (Nat.le_refl _)
    rw [List.range_succ] at this
    simpa [isF32] using this

theorem F32_ofInt_mul_ten (n : Int) (h0 : 0 < n) (h10 : n ≤ 10) :
    F32.mul (F32.ofInt n) (F32.fin 10) = F32.fin ((n : ℚ) * 10) := by
  interval_cases n <;> norm_num <;> decide

set_option maxRecDepth 1000000 in
/-- Every whole number up to 1000 is a `float`. -/
theorem isF32_small_nat : ∀ k : Nat, k ≤ 1000 → isF32 (mkRat (k : Int) 1) := by
  decide

theorem sum_le_of_whole (f : Nat → ℚ) (w : Nat → Nat) (n : Nat)
    (h : ∀ i, i < n → w i ≤ 100 ∧ f i = (w i : ℚ)) :
    ((List.range n).map f).sum = ((((List.range n).map w).sum : Nat) : ℚ) ∧
      ((List.range n).map w).sum ≤ 100 * n := by
  induction n with
  | zero => simp
  | succ n ih =>
    obtain ⟨h1, h2⟩ := ih (fun i hi => h i (Nat.lt_succ_of_lt hi))
    obtain ⟨h3, h4⟩ := h n (Nat.lt_succ_self n)
    rw [List.range_succ, List.map_append, List.map_append, List.sum_append, List.sum_append, h1]
    simp only [List.map_cons, List.map_nil, List.sum_cons, List.sum_nil, add_zero, h4,
      Nat.cast_add]
    exact ⟨trivial, by omega⟩

/-- C5 (as stated) fails: for the marks 50, 60, 65 the sum is 175 and
`sum / (numSubjects * 10)` is 35/6, which is not a `float`; `computeCGPA` returns the
nearest `float`, 12233387/2097152. -/
theorem computeCGPA_rounding_counterexample :
    computeCGPA exCGPARounded = F32.fin (mkRat 12233387 2097152) ∧
      (exCGPARounded.indices.map exCGPARounded.mark).sum /
        ((exCGPARounded.numSubjects : ℚ) * 10) = 35 / 6 ∧
      computeCGPA exCGPARounded ≠
        F32.fin ((exCGPARounded.indices.map exCGPARounded.mark).sum /
          ((exCGPARounded.numSubjects : ℚ) * 10)) := by
  have h1 : computeCGPA exCGPARounded = F32.fin (mkRat 12233387 2097152) := by decide
  have h3 : (3 : Int).toNat = 3 := rfl
  have h2 : (exCGPARounded.indices.map exCGPARounded.mark).sum /
      ((exCGPARounded.numSubjects : ℚ) * 10) = 35 / 6 := by
    simp only [exCGPARounded, Student.indices, h3]
    norm_num [List.range_succ, Student.mark]
  refine ⟨h1, h2, ?_⟩
  rw [h1, h2]
  intro h
  have h' := F32.fin.inj h
  rw [Rat.mkRat_eq_div] at h'
  norm_num at h'

/-- C5 (amended): `computeCGPA` returns 0 when the record has no subjects
(`numSubjects ≤ 0`). When it has 1 to 10 subjects and every partial sum of its marks, taken
in order, is a `float` (as when the marks are whole numbers from 0 to 100), it returns the
`float` nearest to the sum of the record's first `numSubjects` marks divided by
`numSubjects * 10`. -/
theorem computeCGPA_spec (s : Student) :
    (s.numSubjects ≤ 0 → computeCGPA s = F32.fin 0) ∧
    (0 < s.numSubjects → s.numSubjects ≤ 10 →
      (∀ k, k ≤ s.numSubjects.toNat → isF32 (((List.range k).map s.mark).sum)) →
      computeCGPA s = F32.round ((s.indices.map s.mark).sum / ((s.numSubjects : ℚ) * 10))) ∧
    (0 < s.numSubjects → s.numSubjects ≤ 10 →
      (∀ i, i < s.numSubjects.toNat → ∃ w : Nat, w ≤ 100 ∧ s.mark i = (w : ℚ)) →
      computeCGPA s = F32.round ((s.indices.map s.mark).sum / ((s.numSubjects : ℚ) * 10))) := by
  have hmain : 0 < s.numSubjects → s.numSubjects ≤ 10 →
      (∀ k, k ≤ s.numSubjects.toNat → isF32 (((List.range k).map s.mark).sum)) →
      computeCGPA s = F32.round ((s.indices.map s.mark).sum / ((s.numSubjects : ℚ) * 10)) := by
    intro h0 h10 hsum
    have hn : ¬ s.numSubjects ≤ 0 := by omega
    have hne : ((s.numSubjects : ℚ) * 10) ≠ 0 := by
      have : (s.numSubjects : ℚ) ≠ 0 := by exact_mod_cast (by omega : s.numSubjects ≠ 0)
      exact mul_ne_zero this (by norm_num)
    unfold computeCGPA totalMarks Student.indices
    rw [if_neg hn, foldl_F32_add_exact s.mark s.numSubjects.toNat hsum,
      F32_ofInt_mul_ten s.numSubjects h0 h10, F32_div_fin _ _ hne]
  refine ⟨?_, hmain, ?_⟩
  · intro h
    simp [computeCGPA, h]
  · intro h0 h10 hw
    apply hmain h0 h10
    intro k hk
    choose! w hw' using hw
    have hk10 : k ≤ 10 := by omega
    obtain ⟨e1, e2⟩ := sum_le_of_whole s.mark w k (fun i hi => hw' i (by omega))
    rw [e1]
    have := isF32_small_nat (((List.range k).map w).sum) (by omega)
    have hc : ∀ n : Nat, mkRat (n : Int) 1 = (n : ℚ) := by
      intro n
      rw [Rat.mkRat_eq_div]
      simp
    rwa [hc] at this

/-- C5 witness: the marks 80, 90 (partial sums 0, 80, 170) give 8.5, and a record without
subjects gives 0. -/
theorem computeCGPA_spec_witness :
    computeCGPA exCGPA =
        F32.round ((exCGPA.indices.map exCGPA.mark).sum / ((exCGPA.numSubjects : ℚ) * 10)) ∧
      computeCGPA exCGPA = F32.fin (mkRat 17 2) ∧
      (mkRat 17 2 : ℚ) = 8.5 ∧
      computeCGPA exNoSubjects = F32.fin 0 :=
  ⟨(computeCGPA_spec exCGPA).2.1 (by decide) (by decide) (by
      intro k hk
      have hk2 : k ≤ 2 := hk
      interval_cases k
      · exact (by decide : isF32 0)
      · have : ((List.range 1).map exCGPA.mark).sum = 80 := by
          norm_num [List.range_succ, exCGPA, Student.mark]
        rw [this]; decide
      · have : ((List.range 2).map exCGPA.mark).sum = 170 := by
          norm_num [List.range_succ, exCGPA, Student.mark]
        rw [this]; decide),
    by decide, by rw [Rat.mkRat_eq_div]; norm_num,
    (computeCGPA_spec exNoSubjects).1 (by decide)⟩

/-! ## Credential store and session: lemmas -/

theorem findUserFrom_succ (users : List User) (uname : String) (i : Nat) :
    findUserFrom users uname (i + 1) = (findUserFrom users uname i).map (· + 1) := by
  induction users generalizing i with
  | nil => rfl
  | cons u rest ih =>
    simp only [findUserFrom]
    split
    · rfl
    · exact ih (i + 1)

theorem firstMatchFrom_succ (users : List User) (uname pass : String) (i : Nat) :
    firstMatchFrom users uname pass (i + 1) = (firstMatchFrom users uname pass i).map (· + 1) := by
  induction users generalizing i with
  | nil => rfl
  | cons u rest ih =>
    simp only [firstMatchFrom]
    split
    · rfl
    · exact ih (i + 1)

theorem findUserFrom_eq_none (users : List User) (uname : String) (i : Nat) :
    findUserFrom users uname i = none ↔ ∀ u ∈ users, u.username ≠ uname := by
  induction users generalizing i with
  | nil => simp [findUserFrom]
  | cons u rest ih =>
    simp only [findUserFrom]
    by_cases h : u.username = uname
    · simp [h]
    · simp [h, ih]

theorem firstMatchFrom_eq_none (users : List User) (uname pass : String) (i : Nat) :
    firstMatchFrom users uname pass i = none ↔
      ∀ u ∈ users, ¬ (u.username = uname ∧ u.password = pass) := by
  induction users generalizing i with
  | nil => simp [firstMatchFrom]
  | cons u rest ih =>
    simp only [firstMatchFrom]
    by_cases h : u.username = uname ∧ u.password = pass
    · simp [h]
    · simp only [h, if_false, ih, List.mem_cons, forall_eq_or_imp, not_false_eq_true, true_and]

theorem authenticate_cons (u : User) (rest : List User) (uname pass : String) :
    authenticate (u :: rest) uname pass =
      if u.username = uname then (if u.password = pass then some 0 else none)
      else (authenticate rest uname pass).map (· + 1) := by
  unfold authenticate findUser
  simp only [findUserFrom]
  by_cases h : u.username = uname
  · simp [h]
  · simp only [h, if_false, Nat.zero_add]
    rw [findUserFrom_succ]
    cases hf : findUserFrom rest uname 0 with
    | none => simp
    | some k =>
      simp only [Option.map_some', List.getElem?_cons_succ]
      cases hk : rest[k]? with
      | none => simp
      | some v =>
        by_cases hp : v.password = pass
        · simp [hp]
        · simp [hp]

theorem authenticateSpec_cons (u : User) (rest : List User) (uname pass : String) :
    authenticateSpec (u :: rest) uname pass =
      if u.username = uname ∧ u.password = pass then some 0
      else (authenticateSpec rest uname pass).map (· + 1) := by
  unfold authenticateSpec
  simp only [firstMatchFrom]
  by_cases h : u.username = uname ∧ u.password = pass
  · simp [h]
  · simp only [h, if_false, Nat.zero_add]
    exact firstMatchFrom_succ rest uname pass 0

theorem authenticate_eq_none_of_no_match (users : List User) (uname pass : String)
    (h : ∀ u ∈ users, ¬ (u.username = uname ∧ u.password = pass)) :
    authenticate users uname pass = none := by
  induction users with
  | nil => rfl
  | cons u rest ih =>
    rw [authenticate_cons]
    have hu := h u (List.mem_cons_self u rest)
    have hrest := ih (fun v hv => h v (List.mem_cons_of_mem u hv))
    by_cases hn : u.username = uname
    · have hp : ¬ u.password = pass := fun hp => hu ⟨hn, hp⟩
      simp [hn, hp]
    · simp [hn, hrest]

/-- C10 (as stated) fails: in `exDuplicateUsers` the second account matches
(`"asha"`, `"new"`) on both fields, so the first match on both fields is account 1, but the
code looks up the first account named `"asha"`, finds the password `"old"`, and rejects. -/
theorem authenticate_first_match_counterexample :
    authenticateSpec exDuplicateUsers "asha" "new" = some 1 ∧
      authenticate exDuplicateUsers "asha" "new" = none ∧
      ¬ (authenticate exDuplicateUsers "asha" "new" = none ↔
          ∀ a ∈ exDuplicateUsers, ¬ (a.username = "asha" ∧ a.password = "new")) := by
  decide

/-- C10 (amended): for every account store in which no two accounts share a username and
every (username, password), authentication succeeds with the first account in store order
whose username and password are both exactly equal to the inputs, and fails (none) if and
only if no account of the store matches on both fields. -/
theorem authenticate_unique_usernames (users : List User) (uname pass : String)
    (hnodup : (users.map User.username).Nodup) :
    authenticate users uname pass = authenticateSpec users uname pass ∧
      (authenticate users uname pass = none ↔
        ∀ a ∈ users, ¬ (a.username = uname ∧ a.password = pass)) := by
  have key : authenticate users uname pass = authenticateSpec users uname pass := by
    induction users with
    | nil => rfl
    | cons u rest ih =>
      rw [List.map_cons, List.nodup_cons] at hnodup
      rw [authenticate_cons, authenticateSpec_cons, ih hnodup.2]
      by_cases hn : u.username = uname
      · by_cases hp : u.password = pass
        · simp [hn, hp]
        · have hnone : authenticateSpec rest uname pass = none := by
            unfold authenticateSpec
            rw [firstMatchFrom_eq_none]
            intro v hv hboth
            apply hnodup.1
            rw [hn, ← hboth.1]
            exact List.mem_map_of_mem User.username hv
          simp [hn, hp, hnone]
      · simp [hn]
  refine ⟨key, ?_⟩
  rw [key]
  exact firstMatchFrom_eq_none users uname pass 0

/-- C10 witness: the store `exUsers` has distinct usernames; `("asha", "s3cret")` logs in
as account 1 and a wrong-case password is rejected. -/
theorem authenticate_unique_usernames_witness :
    (exUsers.map User.username).Nodup ∧
      authenticate exUsers "asha" "s3cret" = authenticateSpec exUsers "asha" "s3cret" ∧
      authenticate exUsers "asha" "s3cret" = some 1 ∧
      authenticate exUsers "asha" "S3cret" = none :=
  ⟨by decide, (authenticate_unique_usernames exUsers "asha" "s3cret" (by decide)).1,
    by decide, by decide⟩

theorem loginLoop_all_fail (now : String) (st : State) (remaining attempts : Nat)
    (inp : List (String × String))
    (hfail : ∀ p ∈ inp.take remaining, ∀ u ∈ st.users, ¬ (u.username = p.1 ∧ u.password = p.2))
    (hlen : remaining ≤ inp.length) :
    loginLoop now remaining attempts st inp =
      { ret := 0, state := st, attempts := attempts + remaining, unread := inp.drop remaining,
        shownLastLogin := none } := by
  induction remaining generalizing attempts inp with
  | zero => simp [loginLoop]
  | succ n ih =>
    cases inp with
    | nil => simp at hlen
    | cons p rest =>
      have hp := hfail p (by simp)
      have hauth := authenticate_eq_none_of_no_match st.users p.1 p.2 hp
      simp only [loginLoop, List.headD_cons, hauth, List.tail_cons, List.drop_succ_cons]
      rw [ih (attempts + 1) rest
        (fun q hq => hfail q (by simp only [List.take_succ_cons, List.mem_cons]; exact Or.inr hq))
        (by simpa using hlen)]
      simp [Nat.add_assoc, Nat.add_comm 1 n]

theorem loginLoop_bounded (now : String) (st : State) (remaining attempts : Nat)
    (inp : List (String × String)) :
    (loginLoop now remaining attempts st inp).attempts ≤ attempts + remaining ∧
      ∃ k, k ≤ remaining ∧ (loginLoop now remaining attempts st inp).unread = inp.drop k := by
  induction remaining generalizing attempts inp with
  | zero => exact ⟨by simp [loginLoop], 0, Nat.le_refl 0, by simp [loginLoop]⟩
  | succ n ih =>
    simp only [loginLoop]
    cases hauth : authenticate st.users (inp.headD ("", "")).1 (inp.headD ("", "")).2 with
    | some i =>
      refine ⟨by simp, 1, by omega, ?_⟩
      cases inp <;> simp
    | none =>
      obtain ⟨h1, k, hk, h2⟩ := ih (attempts + 1) inp.tail
      refine ⟨by simp only []; omega, k + 1, by omega, ?_⟩
      simp only []
      rw [h2]
      cases inp <;> simp

/-- C9: when none of the three (username, password) attempts matches an account of the
store on both fields, `loginSystem` returns 0 (locked out) after exactly three attempts,
with the state as it was: no session identity is bound (`currentUser` is unchanged), every
account keeps its username, password, role and lastLogin, and the credential file is not
rewritten. Whatever the input, `loginSystem` reads at most three attempts: the counter never
exceeds 3 and at most three pairs are consumed, so a fourth attempt is never accepted. -/
theorem loginSystem_lockout (now : String) (st : State) (a1 a2 a3 : String × String)
    (rest : List (String × String))
    (h1 : ∀ u ∈ st.users, ¬ (u.username = a1.1 ∧ u.password = a1.2))
    (h2 : ∀ u ∈ st.users, ¬ (u.username = a2.1 ∧ u.password = a2.2))
    (h3 : ∀ u ∈ st.users, ¬ (u.username = a3.1 ∧ u.password = a3.2)) :
    loginSystem now st (a1 :: a2 :: a3 :: rest) =
        { ret := 0, state := st, attempts := 3, unread := rest, shownLastLogin := none } ∧
      (loginSystem now st (a1 :: a2 :: a3 :: rest)).state.users = st.users ∧
      (loginSystem now st (a1 :: a2 :: a3 :: rest)).state.currentUser = st.currentUser ∧
      (loginSystem now st (a1 :: a2 :: a3 :: rest)).state.credentialFile = st.credentialFile ∧
      (∀ inp : List (String × String),
        (loginSystem now st inp).attempts ≤ 3 ∧
          ∃ k, k ≤ 3 ∧ (loginSystem now st inp).unread = inp.drop k) := by
  have hmain : loginSystem now st (a1 :: a2 :: a3 :: rest) =
      { ret := 0, state := st, attempts := 3, unread := rest, shownLastLogin := none } := by
    unfold loginSystem
    rw [loginLoop_all_fail now st 3 0 (a1 :: a2 :: a3 :: rest) _ (by simp)]
    · simp
    · intro p hp
      simp only [List.take_succ_cons, List.take_zero, List.mem_cons, List.mem_nil_iff,
        or_false] at hp
      rcases hp with hp | hp | hp
      · rw [hp]; exact h1
      · rw [hp]; exact h2
      · rw [hp]; exact h3
  refine ⟨hmain, ?_, ?_, ?_, ?_⟩
  · rw [hmain]
  · rw [hmain]
  · rw [hmain]
  · intro inp
    have h := loginLoop_bounded now st 3 0 inp
    simpa [loginSystem] using h

/-- C9 witness: three wrong attempts on `exState` lock the run out with the state untouched,
and the fourth pair, although it is a valid credential, is left unread. -/
theorem loginSystem_lockout_witness :
    loginSystem "202410301200" exState
        [("asha", "S3CRET"), ("Admin", "admin"), ("nobody", ""), ("admin", "admin")] =
      { ret := 0, state := exState, attempts := 3, unread := [("admin", "admin")],
        shownLastLogin := none } :=
  (loginSystem_lockout "202410301200" exState ("asha", "S3CRET") ("Admin", "admin")
    ("nobody", "") [("admin", "admin")] (by decide) (by decide) (by decide)).1

theorem findUser_isSome_iff (users : List User) (uname : String) :
    (findUser users uname).isSome ↔ ∃ a ∈ users, a.username = uname := by
  unfold findUser
  rw [← Option.ne_none_iff_isSome, Ne, findUserFrom_eq_none]
  push_neg
  rfl

theorem findStudentFrom_eq_none (students : List Student) (roll : Int) (i : Nat) :
    findStudentFrom students roll i = none ↔ ∀ s ∈ students, s.roll ≠ roll := by
  induction students generalizing i with
  | nil => simp [findStudentFrom]
  | cons s rest ih =>
    simp only [findStudentFrom]
    by_cases h : s.roll = roll
    · simp [h]
    · simp [h, ih]

theorem findStudentByRoll_isSome_iff (students : List Student) (roll : Int) :
    (findStudentByRoll students roll).isSome ↔ ∃ s ∈ students, s.roll = roll := by
  unfold findStudentByRoll
  rw [← Option.ne_none_iff_isSome, Ne, findStudentFrom_eq_none]
  push_neg
  rfl

theorem copyBounded_of_le (n : Nat) (s : String) (h : s.length ≤ n) : copyBounded n s = s := by
  unfold copyBounded
  have : s.data.take n = s.data := List.take_of_length_le h
  rw [this]

/-- C8: `createUser` on a store that already holds 50 accounts reports the limit
(CapacityExceeded), and below the limit reports an existing username (DuplicateKey); in
both cases the state, and so the in-memory account collection, is unchanged. Otherwise it
appends exactly one account carrying the given username, password and role (which fit their
buffers of 50, 50 and 12 bytes) with `lastLogin = "-"`; the existing accounts stay in front
of it unchanged. -/
theorem createUser_spec (st : State) (uname pass role : String)
    (hu : uname.length ≤ NAME_LEN - 1) (hp : pass.length ≤ NAME_LEN - 1)
    (hr : role.length ≤ ROLE_LEN - 1) :
    (st.users.length ≥ 50 →
      createUser st uname pass role = (CreateUserMsg.userLimitReached, st)) ∧
    (st.users.length < 50 → (∃ a ∈ st.users, a.username = uname) →
      createUser st uname pass role = (CreateUserMsg.userExists, st)) ∧
    (st.users.length ≥ 50 ∨ (∃ a ∈ st.users, a.username = uname) →
      (createUser st uname pass role).2.users = st.users ∧
      (createUser st uname pass role).2 = st ∧
      (createUser st uname pass role).1 ≠ CreateUserMsg.created) ∧
    (st.users.length < 50 → (¬ ∃ a ∈ st.users, a.username = uname) →
      (createUser st uname pass role).1 = CreateUserMsg.created ∧
      (createUser st uname pass role).2.users =
        st.users ++ [{ username := uname, password := pass, role := role, lastLogin := "-" }] ∧
      (createUser st uname pass role).2.users.length = st.users.length + 1 ∧
      (createUser st uname pass role).2.users.take st.users.length = st.users) := by
  have hcap : st.users.length ≥ 50 →
      createUser st uname pass role = (CreateUserMsg.userLimitReached, st) := by
    intro h
    have h' : st.users.length ≥ MAX_USERS := h
    simp [createUser, h']
  have hdup : st.users.length < 50 → (∃ a ∈ st.users, a.username = uname) →
      createUser st uname pass role = (CreateUserMsg.userExists, st) := by
    intro h hex
    have h' : ¬ st.users.length ≥ MAX_USERS := Nat.not_le.mpr h
    have hs : (findUser st.users uname).isSome = true := (findUser_isSome_iff _ _).mpr hex
    simp only [createUser, h', if_false, hs, if_true]
  refine ⟨hcap, hdup, ?_, ?_⟩
  · intro h
    by_cases hc : st.users.length ≥ 50
    · rw [hcap hc]
      exact ⟨rfl, rfl, by simp⟩
    · have hex : ∃ a ∈ st.users, a.username = uname := h.resolve_left hc
      rw [hdup (Nat.not_le.mp hc) hex]
      exact ⟨rfl, rfl, by simp⟩
  · intro h hnex
    have h' : ¬ st.users.length ≥ MAX_USERS := Nat.not_le.mpr h
    have hs : ¬ (findUser st.users uname).isSome = true :=
      fun hs => hnex ((findUser_isSome_iff _ _).mp hs)
    simp only [createUser, h', if_false, hs, copyBounded_of_le _ _ hu, copyBounded_of_le _ _ hp,
      copyBounded_of_le _ _ hr]
    simp

/-- C8 witness: on the two-account store `exState` a new account `"ravi"` is appended with
`lastLogin = "-"`, the taken username `"asha"` is refused, and a store of 50 accounts is
full; the refusals leave the state as it was. -/
theorem createUser_spec_witness :
    (createUser exState "ravi" "pw1" "teacher").2.users =
        exUsers ++ [{ username := "ravi", password := "pw1", role := "teacher", lastLogin := "-" }] ∧
      createUser exState "asha" "pw1" "teacher" = (CreateUserMsg.userExists, exState) ∧
      createUser { exState with users := exFullUsers } "ravi" "pw1" "teacher" =
        (CreateUserMsg.userLimitReached, { exState with users := exFullUsers }) :=
  ⟨((createUser_spec exState "ravi" "pw1" "teacher" (by decide) (by decide) (by decide)).2.2.2
      (by decide) (by decide)).2.1,
    (createUser_spec exState "asha" "pw1" "teacher" (by decide) (by decide) (by decide)).2.1
      (by decide) (by decide),
    (createUser_spec { exState with users := exFullUsers } "ravi" "pw1" "teacher"
      (by decide) (by decide) (by decide)).1 (by decide)⟩

/-- The inner-loop body on an optional table, as folded by the aggregation pass. -/
theorem aggregate_eq_foldl_pairs (students : List Student) (acc : Option (List Stat)) :
    students.foldl aggregateStudent acc =
      (subjectPairs students).foldl
        (fun acc p => acc.bind (fun stats => statStep stats p.1 p.2)) acc := by
  induction students generalizing acc with
  | nil => rfl
  | cons s rest ih =>
    rw [List.foldl_cons, ih, subjectPairs, List.foldl_append]
    congr 1
    unfold aggregateStudent
    rw [List.foldl_map]

theorem firstSeen_append_singleton (l : List String) (x : String) :
    firstSeen (l ++ [x]) = if x ∈ firstSeen l then firstSeen l else firstSeen l ++ [x] := by
  unfold firstSeen
  rw [List.foldl_append]
  rfl

theorem mem_firstSeen (l : List String) (x : String) : x ∈ firstSeen l ↔ x ∈ l := by
  induction l using List.reverseRecOn with
  | nil => simp [firstSeen]
  | append_singleton l a ih =>
    rw [firstSeen_append_singleton]
    by_cases ha : a ∈ firstSeen l
    · rw [if_pos ha, List.mem_append, List.mem_singleton, ih]
      constructor
      · intro h; exact Or.inl h
      · rintro (h | h)
        · exact h
        · subst h; exact ih.mp ha
    · rw [if_neg ha, List.mem_append, List.mem_append, ih]

theorem nodup_firstSeen (l : List String) : (firstSeen l).Nodup := by
  induction l using List.reverseRecOn with
  | nil => simp [firstSeen]
  | append_singleton l a ih =>
    rw [firstSeen_append_singleton]
    by_cases ha : a ∈ firstSeen l
    · rw [if_pos ha]; exact ih
    · rw [if_neg ha]
      rw [List.nodup_append]
      refine ⟨ih, List.nodup_singleton a, ?_⟩
      intro x hx hx'
      rw [List.mem_singleton] at hx'
      exact ha (hx' ▸ hx)

theorem findStatFrom_succ (stats : List Stat) (name : String) (k : Nat) :
    findStatFrom stats name (k + 1) = (findStatFrom stats name k).map (· + 1) := by
  induction stats generalizing k with
  | nil => rfl
  | cons st rest ih =>
    simp only [findStatFrom]
    split
    · rfl
    · exact ih (k + 1)

theorem findStatFrom_map_eq_none (f : String → Stat) (hf : ∀ x, (f x).name = x)
    (L : List String) (name : String) (k : Nat) (h : name ∉ L) :
    findStatFrom (L.map f) name k = none := by
  induction L generalizing k with
  | nil => rfl
  | cons x xs ih =>
    rw [List.mem_cons, not_or] at h
    simp only [List.map_cons, findStatFrom, hf]
    rw [if_neg (fun hx => h.1 hx.symm)]
    exact ih (k + 1) h.2

/-- On a table without repeated names, the lookup finds the slot of `name` and updating
that slot is updating the entry of `name`. -/
theorem updateSlot_found (f : String → Stat) (hf : ∀ x, (f x).name = x) (h : Stat → Stat)
    (L : List String) (name : String) (hmem : name ∈ L) (hnd : L.Nodup) :
    ∃ k, findStatFrom (L.map f) name 0 = some k ∧
      updateSlot h k (L.map f) = L.map (fun x => if x = name then h (f x) else f x) := by
  induction L with
  | nil => simp at hmem
  | cons x xs ih =>
    rw [List.nodup_cons] at hnd
    by_cases hx : x = name
    · refine ⟨0, ?_, ?_⟩
      · simp [findStatFrom, hf, hx]
      · simp only [List.map_cons, updateSlot, hx, if_true]
        congr 1
        apply List.map_congr_left
        intro y hy
        have : y ≠ name := fun h' => hnd.1 (hx ▸ h' ▸ hy)
        simp [this]
    · have hmem' : name ∈ xs := by
        rcases List.mem_cons.mp hmem with h' | h'
        · exact absurd h'.symm hx
        · exact h'
      obtain ⟨k, hk1, hk2⟩ := ih hmem' hnd.2
      refine ⟨k + 1, ?_, ?_⟩
      · simp only [List.map_cons, findStatFrom, hf, hx, if_false, Nat.zero_add]
        have := findStatFrom_succ (xs.map f) name 0
        rw [Nat.zero_add] at this
        rw [this, hk1]
        rfl
      · simp only [List.map_cons, updateSlot, hx, if_false]
        rw [hk2]

theorem updateSlot_length_append (h : Stat → Stat) (l : List Stat) (a : Stat) :
    updateSlot h l.length (l ++ [a]) = l ++ [h a] := by
  induction l with
  | nil => rfl
  | cons x xs ih => simp [updateSlot, ih]

theorem marksOf_append_same (P : List (String × ℚ)) (name : String) (m : ℚ) :
    marksOf (P ++ [(name, m)]) name = marksOf P name ++ [m] := by
  simp [marksOf, List.filter_append]

theorem marksOf_append_other (P : List (String × ℚ)) (name x : String) (m : ℚ)
    (hx : x ≠ name) : marksOf (P ++ [(name, m)]) x = marksOf P x := by
  have : ¬ name = x := fun h => hx h.symm
  simp [marksOf, List.filter_append, this]

theorem marksOf_not_mem (P : List (String × ℚ)) (name : String)
    (h : name ∉ P.map Prod.fst) : marksOf P name = [] := by
  unfold marksOf
  rw [List.map_eq_nil_iff, List.filter_eq_nil_iff]
  intro p hp
  simp only [decide_eq_true_eq]
  intro hpn
  exact h (hpn ▸ List.mem_map_of_mem Prod.fst hp)

theorem floatSum_append (ms : List ℚ) (m : ℚ) :
    floatSum (ms ++ [m]) = F32.add (floatSum ms) (F32.fin m) := by
  unfold floatSum
  rw [List.foldl_append]
  rfl

theorem statOf_append_same (P : List (String × ℚ)) (name : String) (m : ℚ) :
    statOf (P ++ [(name, m)]) name = bumpStat m (statOf P name) := by
  unfold statOf bumpStat
  rw [marksOf_append_same, floatSum_append]
  by_cases hm : m < 40
  · simp [List.filter_append, hm]
  · simp [List.filter_append, hm]

theorem statOf_append_other (P : List (String × ℚ)) (name x : String) (m : ℚ)
    (hx : x ≠ name) : statOf (P ++ [(name, m)]) x = statOf P x := by
  unfold statOf
  rw [marksOf_append_other P name x m hx]

/-- The aggregation pass over the pairs `P` builds, in first-seen order, the slot of each
distinct name, as long as there are at most `STAT_CAP` distinct names. -/
theorem foldl_statStep_eq (P : List (String × ℚ))
    (hcap : (firstSeen (P.map Prod.fst)).length ≤ STAT_CAP) :
    P.foldl (fun acc p => acc.bind (fun stats => statStep stats p.1 p.2)) (some []) =
      some ((firstSeen (P.map Prod.fst)).map (statOf P)) := by
  induction P using List.reverseRecOn with
  | nil => simp [firstSeen]
  | append_singleton P p ih =>
    obtain ⟨name, m⟩ := p
    rw [List.map_append, List.map_singleton, firstSeen_append_singleton] at hcap ⊢
    have hname : ∀ x, (statOf P x).name = x := fun _ => rfl
    rw [List.foldl_append]
    by_cases hmem : name ∈ firstSeen (P.map Prod.fst)
    · rw [if_pos hmem] at hcap ⊢
      rw [ih hcap]
      simp only [List.foldl_cons, List.foldl_nil, Option.some_bind]
      obtain ⟨k, hk1, hk2⟩ := updateSlot_found (statOf P) hname (bumpStat m)
        (firstSeen (P.map Prod.fst)) name hmem (nodup_firstSeen _)
      unfold statStep
      rw [hk1]
      simp only []
      rw [hk2]
      congr 1
      apply List.map_congr_left
      intro x _
      by_cases hx : x = name
      · rw [if_pos hx, hx, statOf_append_same]
      · rw [if_neg hx, statOf_append_other P name x m hx]
    · rw [if_neg hmem] at hcap ⊢
      rw [List.length_append, List.length_singleton] at hcap
      rw [ih (by omega)]
      simp only [List.foldl_cons, List.foldl_nil, Option.some_bind]
      unfold statStep
      rw [findStatFrom_map_eq_none (statOf P) hname _ name 0 hmem]
      have hlt : ((firstSeen (P.map Prod.fst)).map (statOf P)).length < STAT_CAP := by
        rw [List.length_map]; omega
      simp only [hlt, if_true]
      rw [updateSlot_length_append, List.map_append, List.map_singleton]
      have hnew : statOf (P ++ [(name, m)]) name =
          bumpStat m { name := name, sum := F32.fin 0, count := 0, fails := 0 } := by
        rw [statOf_append_same]
        congr 1
        unfold statOf
        rw [marksOf_not_mem P name (fun h => hmem ((mem_firstSeen _ _).mpr h))]
        simp [floatSum]
      rw [hnew]
      congr 2
      apply List.map_congr_left
      intro x hx
      have hxn : x ≠ name := fun h => hmem (h ▸ hx)
      rw [statOf_append_other P name x m hxn]

theorem reportRow_statOf (P : List (String × ℚ)) (name : String) :
    reportRow (statOf P name) = specRow P name := by
  rfl

theorem updateSlot_length (f : Stat → Stat) (k : Nat) (l : List Stat) :
    (updateSlot f k l).length = l.length := by
  induction l generalizing k with
  | nil => cases k <;> rfl
  | cons x xs ih =>
    cases k with
    | zero => rfl
    | succ k => simp [updateSlot, ih]

theorem statStep_length (stats stats' : List Stat) (name : String) (m : ℚ)
    (hlen : stats.length ≤ STAT_CAP) (h : statStep stats name m = some stats') :
    stats'.length ≤ STAT_CAP := by
  unfold statStep at h
  split at h
  · simp only [Option.some.injEq] at h
    rw [← h, updateSlot_length]; exact hlen
  · split at h
    · rename_i hlt
      simp only [Option.some.injEq] at h
      rw [← h, updateSlot_length, List.length_append, List.length_singleton]
      omega
    · exact absurd h (by simp)

/-- The table never holds more than `STAT_CAP` subjects, so no run of the pass can report
more. -/
theorem aggregate_length (students : List Student) (stats : List Stat)
    (h : aggregate students = some stats) : stats.length ≤ STAT_CAP := by
  unfold aggregate at h
  rw [aggregate_eq_foldl_pairs] at h
  suffices hgen : ∀ (P : List (String × ℚ)) (acc : Option (List Stat)),
      (∀ t, acc = some t → t.length ≤ STAT_CAP) →
      ∀ t, P.foldl (fun acc p => acc.bind (fun stats => statStep stats p.1 p.2)) acc = some t →
        t.length ≤ STAT_CAP by
    exact hgen _ (some []) (by intro t ht; cases ht; simp) stats h
  intro P
  induction P with
  | nil => intro acc hacc t ht; exact hacc t ht
  | cons p P ih =>
    intro acc hacc t ht
    rw [List.foldl_cons] at ht
    refine ih _ ?_ t ht
    intro t' ht'
    cases acc with
    | none => simp at ht'
    | some a => exact statStep_length a t' p.1 p.2 (hacc a rfl) ht'

set_option maxRecDepth 100000 in
theorem exManySubjects_row : "s100" ∈ hardSubjectNamesExact exManySubjects := by
  unfold hardSubjectNamesExact
  rw [List.mem_filter]
  refine ⟨by decide, ?_⟩
  have hm : marksOf (subjectPairs exManySubjects) "s100" = [30] := by decide
  simp only [decide_eq_true_eq, isHardExact, hm]
  norm_num

theorem exFloatCohort_exact : hardSubjectNamesExact exFloatCohort = [] := by
  have hf : firstSeen ((subjectPairs exFloatCohort).map Prod.fst) = ["Math"] := by decide
  have hm : marksOf (subjectPairs exFloatCohort) "Math" =
      [mkRat 2565079 65536, mkRat 5229773 131072, mkRat 10433331 262144,
        mkRat 5332009 131072, mkRat 10611589 262144] := by decide
  unfold hardSubjectNamesExact
  rw [hf]
  have hnot : ¬ isHardExact (subjectPairs exFloatCohort) "Math" := by
    simp only [isHardExact, hm]
    norm_num [Rat.mkRat_eq_div]
  simp [List.filter, hnot]

set_option maxRecDepth 100000 in
/-- C3 (as stated) fails, in two ways. `exManySubjects` is a collection of 11 records with
10 subjects each, within the stated bounds, whose 110 subject names are distinct and all
hard (mark 30 throughout), `"s100"` among them. The table of the pass has 100 slots; at the
101st new name, `"s100"`, `idx` stays `-1` and the pass accesses `stats[-1]`: no report of
the hard subjects results. `exFloatCohort` holds five "Math" marks, each a `float`, whose
exact average is 40, so that "Math" is not hard by the stated formula; the code sums the
marks in `float`, gets the average 10485759/262144, just below 40, and reports "Math". -/
theorem detectHardSubjects_counterexample :
    exManySubjects.length ≤ 200 ∧
      (∀ s ∈ exManySubjects, 0 ≤ s.numSubjects ∧ s.numSubjects ≤ 10) ∧
      (firstSeen ((subjectPairs exManySubjects).map Prod.fst)).length = 110 ∧
      "s100" ∈ hardSubjectNamesExact exManySubjects ∧
      detectHardSubjects exManySubjects = none ∧
      (detectHardSubjects exManySubjects).map (List.map HardRow.name) ≠
        some (hardSubjectNamesExact exManySubjects) ∧
      (∀ s ∈ exFloatCohort, isF32 (s.mark 0)) ∧
      hardSubjectNamesExact exFloatCohort = [] ∧
      detectHardSubjects exFloatCohort =
        some [{ name := "Math", failPct := F32.fin 60,
                avg := F32.fin (mkRat 10485759 262144) }] ∧
      (detectHardSubjects exFloatCohort).map (List.map HardRow.name) ≠
        some (hardSubjectNamesExact exFloatCohort) := by
  have hnone : detectHardSubjects exManySubjects = none := by decide
  have hfloat : detectHardSubjects exFloatCohort =
      some [{ name := "Math", failPct := F32.fin 60,
              avg := F32.fin (mkRat 10485759 262144) }] := by decide
  refine ⟨by decide, by decide, by decide, exManySubjects_row, hnone, ?_,
    by decide, exFloatCohort_exact, hfloat, ?_⟩
  · rw [hnone]
    exact fun h => Option.noConfusion h
  · rw [hfloat, exFloatCohort_exact]
    decide

/-- C3 (amended): for every collection of student records that mentions at most 100
distinct subject names, `detectHardSubjects` aggregates every (subjectName, mark) pair of
every record, grouping by exact string equality of the name, and reports exactly those
distinct subjects for which `failPct > 30` and `avg < 40`, where `avg` is the `float` sum of
the subject's marks, accumulated in pass order, divided in `float` by their count, and
`failPct` is `failCount * 100` divided in `float` by the count (fail = mark below 40), in
the order in which each subject name was first seen during the pass. -/
theorem detectHardSubjects_spec (students : List Student)
    (hcap : (firstSeen ((subjectPairs students).map Prod.fst)).length ≤ 100) :
    detectHardSubjects students = some (hardSubjectsSpec students) := by
  unfold detectHardSubjects aggregate hardSubjectsSpec
  rw [aggregate_eq_foldl_pairs, foldl_statStep_eq _ hcap]
  simp only [Option.map_some', List.filterMap_map]
  congr 2

/-- C3 witness: in `exCohort`, "Math" with the marks 30, 35, 38 across three students is
reported (failPct 100, average the `float` nearest to 103/3) and "Art" with the marks 90,
85 is not. -/
theorem detectHardSubjects_spec_witness :
    detectHardSubjects exCohort =
      some [{ name := "Math", failPct := F32.fin 100,
              avg := F32.fin (mkRat 9000277 262144) }] := by
  rw [detectHardSubjects_spec exCohort (by decide)]
  decide

theorem digitChar_facts :
    ∀ d, d < 10 → isDigit (digitChar d) = true ∧ (digitChar d).toNat - 48 = d ∧
      isSpace (digitChar d) = false ∧ digitChar d ≠ '-' ∧ digitChar d ≠ '+' := by
  decide

theorem scanDigits_digit (d : Nat) (hd : d < 10) (rest : List Char) (acc cnt : Nat) :
    scanDigits (digitChar d :: rest) acc cnt = scanDigits rest (acc * 10 + d) (cnt + 1) := by
  obtain ⟨h1, h2, _⟩ := digitChar_facts d hd
  simp only [scanDigits, h1, if_true, h2]

theorem decimalAux_ne_nil (fuel n : Nat) (h : n < fuel) : decimalAux fuel n ≠ [] := by
  cases fuel with
  | zero => omega
  | succ fuel =>
    unfold decimalAux
    split <;> simp

/-- Every character of a numeral is a digit: no space, no sign. -/
theorem decimalAux_chars (fuel n : Nat) :
    ∀ c ∈ decimalAux fuel n, isDigit c = true ∧ isSpace c = false ∧ c ≠ '-' ∧ c ≠ '+' := by
  induction fuel generalizing n with
  | zero => simp [decimalAux]
  | succ fuel ih =>
    intro c hc
    unfold decimalAux at hc
    split at hc
    · rename_i hlt
      rw [List.mem_singleton] at hc
      obtain ⟨h1, _, h3, h4, h5⟩ := digitChar_facts n hlt
      rw [hc]; exact ⟨h1, h3, h4, h5⟩
    · rw [List.mem_append, List.mem_singleton] at hc
      rcases hc with hc | hc
      · exact ih (n / 10) c hc
      · obtain ⟨h1, _, h3, h4, h5⟩ := digitChar_facts (n % 10) (Nat.mod_lt n (by norm_num))
        rw [hc]; exact ⟨h1, h3, h4, h5⟩

/-- Scanning a numeral adds its value to the accumulator. -/
theorem scanDigits_decimalAux (fuel n : Nat) (h : n < fuel) (rest : List Char) (acc cnt : Nat) :
    scanDigits (decimalAux fuel n ++ rest) acc cnt =
      scanDigits rest (acc * 10 ^ (decimalAux fuel n).length + n)
        (cnt + (decimalAux fuel n).length) := by
  induction fuel generalizing n rest acc cnt with
  | zero => omega
  | succ fuel ih =>
    unfold decimalAux
    by_cases hlt : n < 10
    · simp only [hlt, if_true, List.singleton_append, List.length_singleton, pow_one]
      exact scanDigits_digit n hlt rest acc cnt
    · simp only [hlt, if_false, List.append_assoc, List.singleton_append, List.length_append,
        List.length_singleton]
      have hn : n / 10 < fuel := by omega
      rw [ih (n / 10) hn, scanDigits_digit (n % 10) (Nat.mod_lt n (by norm_num))]
      congr 1
      · rw [pow_succ]
        have := Nat.div_add_mod n 10
        nlinarith [this]

theorem scanDigits_stop (c : Char) (rest : List Char) (acc cnt : Nat) (h : isDigit c = false) :
    scanDigits (c :: rest) acc cnt = (acc, cnt, c :: rest) := by
  simp [scanDigits, h]

/-- A numeral followed by a character that is not a digit scans to its value. -/
theorem scanDigits_decimal (n : Nat) (c : Char) (rest : List Char) (h : isDigit c = false) :
    ∃ cnt, cnt ≠ 0 ∧ scanDigits (decimal n ++ c :: rest) 0 0 = (n, cnt, c :: rest) := by
  refine ⟨(decimal n).length, ?_, ?_⟩
  · intro h0
    exact decimalAux_ne_nil (n + 1) n (Nat.lt_succ_self n) (List.length_eq_zero.mp h0)
  · unfold decimal
    rw [scanDigits_decimalAux (n + 1) n (Nat.lt_succ_self n), scanDigits_stop c rest _ _ h]
    simp

theorem decimal_head (n : Nat) :
    ∃ c tl, decimal n = c :: tl ∧ isDigit c = true ∧ isSpace c = false ∧ c ≠ '-' ∧ c ≠ '+' := by
  have hne := decimalAux_ne_nil (n + 1) n (Nat.lt_succ_self n)
  cases hd : decimal n with
  | nil => exact absurd hd hne
  | cons c tl =>
    have := decimalAux_chars (n + 1) n c (by
      have : c ∈ decimal n := by rw [hd]; exact List.mem_cons_self c tl
      exact this)
    exact ⟨c, tl, rfl, this⟩

theorem skipSpace_space (c : Char) (rest : List Char) (h : isSpace c = true) :
    skipSpace (c :: rest) = skipSpace rest := by
  simp [skipSpace, h]

theorem skipSpace_nonspace (c : Char) (rest : List Char) (h : isSpace c = false) :
    skipSpace (c :: rest) = c :: rest := by
  simp [skipSpace, h]

theorem scanSign_other (c : Char) (rest : List Char) (h1 : c ≠ '-') (h2 : c ≠ '+') :
    scanSign (c :: rest) = (false, c :: rest) := by
  simp [scanSign, h1, h2]

/-- The conversion `%d` reads back what `%d` wrote, up to the following non-digit. -/
theorem scanInt_fmtInt (z : Int) (c : Char) (rest : List Char) (h : isDigit c = false) :
    scanInt (fmtInt z ++ c :: rest) = some (z, c :: rest) := by
  obtain ⟨cnt, hcnt, hscan⟩ := scanDigits_decimal z.natAbs c rest h
  unfold scanInt fmtInt
  by_cases hz : z < 0
  · simp only [hz, if_true, List.cons_append]
    rw [skipSpace_nonspace '-' _ (by decide)]
    have hs : scanSign ('-' :: (decimal z.natAbs ++ c :: rest)) =
        (true, decimal z.natAbs ++ c :: rest) := by simp [scanSign]
    rw [hs]
    simp only [hscan, hcnt, if_false, if_true]
    congr 2
    omega
  · simp only [hz, if_false]
    obtain ⟨d, tl, hd, _, hsp, hm, hp⟩ := decimal_head z.natAbs
    have e1 : skipSpace (decimal z.natAbs ++ c :: rest) = decimal z.natAbs ++ c :: rest := by
      rw [hd, List.cons_append]; exact skipSpace_nonspace d _ hsp
    have e2 : scanSign (decimal z.natAbs ++ c :: rest) =
        (false, decimal z.natAbs ++ c :: rest) := by
      rw [hd, List.cons_append]; exact scanSign_other d _ hm hp
    rw [e1, e2]
    simp only [hscan, hcnt, if_false]
    congr 2
    simp only [Bool.false_eq_true, if_false]
    omega

theorem scanInt_space (c : Char) (rest : List Char) (h : isSpace c = true) :
    scanInt (c :: rest) = scanInt rest := by
  unfold scanInt
  rw [skipSpace_space c rest h]

theorem takeToken_token (t : List Char) (w : Nat) (c : Char) (rest : List Char)
    (hlen : t.length ≤ w) (ht : ∀ x ∈ t, isSpace x = false) (hc : isSpace c = true) :
    takeToken w (t ++ c :: rest) = (t, c :: rest) := by
  induction t generalizing w with
  | nil =>
    cases w with
    | zero => rfl
    | succ w => simp [takeToken, hc]
  | cons x xs ih =>
    cases w with
    | zero => simp at hlen
    | succ w =>
      have hx : isSpace x = false := ht x (List.mem_cons_self x xs)
      have := ih w (by simpa using hlen) (fun y hy => ht y (List.mem_cons_of_mem x hy))
      simp [takeToken, hx, this]

/-- The conversion `%ws` reads back a token followed by white space. -/
theorem scanStr_token (s : String) (w : Nat) (c : Char) (rest : List Char)
    (hs : isToken w s) (hc : isSpace c = true) :
    scanStr w (s.data ++ c :: rest) = some (s, c :: rest) := by
  obtain ⟨hne, hlen, hchars⟩ := hs
  unfold scanStr
  cases hd : s.data with
  | nil => exact absurd hd hne
  | cons x xs =>
    have hx : isSpace x = false := hchars x (by rw [hd]; exact List.mem_cons_self x xs)
    rw [List.cons_append, skipSpace_nonspace x _ hx, ← List.cons_append, ← hd,
      takeToken_token s.data w c rest hlen hchars hc]
    simp [hne]

theorem scanStr_space (w : Nat) (c : Char) (rest : List Char) (h : isSpace c = true) :
    scanStr w (c :: rest) = scanStr w rest := by
  unfold scanStr
  rw [skipSpace_space c rest h]

theorem fmtFixed2_digits (r : Nat) :
    r / 100 * 10 ^ 2 + ((0 * 10 + r % 100 / 10) * 10 + r % 10) = r := by
  omega

/-- The conversion `%f` reads what `%.2f` wrote, up to the following non-digit, and stores
the `float` nearest to it. -/
theorem scanFloat_fmtFixed2 (q : ℚ) (c : Char) (rest : List Char) (hc : isDigit c = false) :
    scanFloat (fmtFixed2 q ++ c :: rest) = (some (F32.round (textValue q)), c :: rest) := by
  generalize hrdef : roundHundredths q = r
  have hd1 : r % 100 / 10 < 10 := by omega
  have hd2 : r % 10 < 10 := by omega
  obtain ⟨cnt, hcnt, hscan⟩ := scanDigits_decimal (r / 100) '.'
    (digitChar (r % 100 / 10) :: digitChar (r % 10) :: c :: rest) (by decide)
  have hfrac : scanDigits (digitChar (r % 100 / 10) :: digitChar (r % 10) :: c :: rest) 0 0 =
      ((0 * 10 + r % 100 / 10) * 10 + r % 10, 2, c :: rest) := by
    rw [scanDigits_digit _ hd1, scanDigits_digit _ hd2, scanDigits_stop c rest _ _ hc]
  have hval : (mkRat ((r / 100 * 10 ^ 2 + ((0 * 10 + r % 100 / 10) * 10 + r % 10) : Nat) : Int)
      (10 ^ 2) : ℚ) = mkRat ((r : Nat) : Int) 100 := by
    rw [fmtFixed2_digits]
    norm_num
  have hbody : scanMantissa (decimal (r / 100) ++
        ['.', digitChar (r % 100 / 10), digitChar (r % 10)] ++ c :: rest) =
      (some (mkRat ((r : Nat) : Int) 100), c :: rest) := by
    have happ : decimal (r / 100) ++ ['.', digitChar (r % 100 / 10), digitChar (r % 10)] ++
        c :: rest = decimal (r / 100) ++
          '.' :: digitChar (r % 100 / 10) :: digitChar (r % 10) :: c :: rest := by simp
    unfold scanMantissa
    rw [happ, hscan]
    simp only [hfrac]
    rw [hval]
    simp
  unfold scanFloat fmtFixed2 textValue
  rw [hrdef]
  by_cases hneg : q < 0
  · simp only [hneg, if_true, List.cons_append]
    rw [skipSpace_nonspace '-' _ (by decide)]
    have hs : ∀ l : List Char, scanSign ('-' :: l) = (true, l) := by
      intro l; simp [scanSign]
    rw [hs]
    simp only []
    rw [hbody]
    simp
  · simp only [hneg, if_false]
    obtain ⟨d, tl, hd, _, hsp, hm, hp⟩ := decimal_head (r / 100)
    have e1 : ∀ l : List Char, skipSpace (decimal (r / 100) ++ l) = decimal (r / 100) ++ l := by
      intro l; rw [hd, List.cons_append]; exact skipSpace_nonspace d _ hsp
    have e2 : ∀ l : List Char, scanSign (decimal (r / 100) ++ l) =
        (false, decimal (r / 100) ++ l) := by
      intro l; rw [hd, List.cons_append]; exact scanSign_other d _ hm hp
    rw [List.append_assoc, e1, e2, ← List.append_assoc]
    simp only []
    rw [hbody]
    simp

theorem scanFloat_space (c : Char) (rest : List Char) (h : isSpace c = true) :
    scanFloat (c :: rest) = scanFloat rest := by
  unfold scanFloat
  rw [skipSpace_space c rest h]

theorem scanHeader_space (c : Char) (rest : List Char) (h : isSpace c = true) :
    scanHeader (c :: rest) = scanHeader rest := by
  unfold scanHeader
  rw [scanInt_space c rest h]

theorem loadStudentsLoop_space (room : Nat) (c : Char) (rest : List Char)
    (h : isSpace c = true) :
    loadStudentsLoop room (c :: rest) = loadStudentsLoop room rest := by
  cases room with
  | zero => rfl
  | succ room => simp only [loadStudentsLoop, scanHeader_space c rest h]

theorem studentText_append (s : Student) (T : List Char) :
    studentText s ++ T =
      fmtInt s.roll ++ ' ' :: (s.name.data ++ ' ' :: (s.branch.data ++ ' ' ::
        (fmtInt s.semester ++ ' ' :: (fmtInt s.numSubjects ++ ' ' ::
          (fmtFixed2 s.attendance ++ '\n' :: (subjectLines s s.indices ++ T)))))) := by
  simp [studentText]

/-- The header conversions read back the header line of a storable record, leaving the
newline that ends it. -/
theorem scanHeader_header (s : Student) (hs : s.storable) (T : List Char) :
    scanHeader (fmtInt s.roll ++ ' ' :: (s.name.data ++ ' ' :: (s.branch.data ++ ' ' ::
        (fmtInt s.semester ++ ' ' :: (fmtInt s.numSubjects ++ ' ' ::
          (fmtFixed2 s.attendance ++ '\n' :: T)))))) =
      some ({ roll := s.roll, name := s.name, branch := s.branch, semester := s.semester,
              numSubjects := s.numSubjects, attendance := F32.fin s.attendance },
            '\n' :: T) := by
  obtain ⟨_, _, _, _, hname, hbranch, hatt, _⟩ := hs
  have hsp : isSpace ' ' = true := by decide
  have hdg : isDigit ' ' = false := by decide
  unfold reloads at hatt
  unfold scanHeader
  rw [scanInt_fmtInt s.roll ' ' _ hdg]
  simp only []
  rw [scanStr_space _ ' ' _ hsp, scanStr_token s.name _ ' ' _ hname hsp]
  simp only []
  rw [scanStr_space _ ' ' _ hsp, scanStr_token s.branch _ ' ' _ hbranch hsp]
  simp only []
  rw [scanInt_space ' ' _ hsp, scanInt_fmtInt s.semester ' ' _ hdg]
  simp only []
  rw [scanInt_space ' ' _ hsp, scanInt_fmtInt s.numSubjects ' ' _ hdg]
  simp only []
  rw [scanFloat_space ' ' _ hsp, scanFloat_fmtFixed2 s.attendance '\n' T (by decide), hatt]

/-- The subject conversions read back one subject line, leaving the newline that ends it. -/
theorem scanSubject_line (nm : String) (m : ℚ) (hnm : isToken (SUBJ_LEN - 1) nm)
    (hm : reloads m) (T : List Char) :
    scanSubject ('\n' :: (nm.data ++ ' ' :: (fmtFixed2 m ++ '\n' :: T))) =
      ((nm, F32.fin m), '\n' :: T) := by
  have hsp : isSpace ' ' = true := by decide
  have hnl : isSpace '\n' = true := by decide
  unfold reloads at hm
  unfold scanSubject
  rw [scanStr_space _ '\n' _ hnl, scanStr_token nm _ ' ' _ hnm hsp]
  simp only []
  rw [scanFloat_space ' ' _ hsp, scanFloat_fmtFixed2 m '\n' T (by decide), hm]

theorem scanSubjects_lines (s : Student) (js : List Nat) (T : List Char)
    (h : ∀ j ∈ js, isToken (SUBJ_LEN - 1) (s.subjectName j) ∧ reloads (s.mark j)) :
    scanSubjects js.length ('\n' :: (subjectLines s js ++ T)) =
      (js.map (fun j => (s.subjectName j, F32.fin (s.mark j))), '\n' :: T) := by
  induction js with
  | nil => rfl
  | cons j js ih =>
    have hj := h j (List.mem_cons_self j js)
    have htext : '\n' :: (subjectLines s (j :: js) ++ T) =
        '\n' :: ((s.subjectName j).data ++ ' ' ::
          (fmtFixed2 (s.mark j) ++ '\n' :: (subjectLines s js ++ T))) := by
      simp [subjectLines]
    rw [htext]
    simp only [List.length_cons, scanSubjects, scanSubject_line _ _ hj.1 hj.2,
      ih (fun i hi => h i (List.mem_cons_of_mem j hi)), List.map_cons]

theorem finiteMarks_fin (s : Student) (js : List Nat) :
    finiteMarks (js.map (fun j => (s.subjectName j, F32.fin (s.mark j)))) =
      some (js.map s.mark) := by
  induction js with
  | nil => rfl
  | cons j js ih => simp [finiteMarks, F32.toRat?, ih]

theorem range_map_getD {α : Type} (l : List α) (d : α) (n : Nat) (h : n ≤ l.length) :
    (List.range n).map (fun j => l.getD j d) = l.take n := by
  induction n with
  | zero => simp
  | succ n ih =>
    have hn : n < l.length := h
    rw [List.range_succ, List.map_append, ih (Nat.le_of_lt hn), List.take_succ,
      List.getElem?_eq_getElem hn]
    simp [List.getD_eq_getElem?_getD, List.getElem?_eq_getElem hn]

theorem clampSubjects_of_valid (n : Int) (h0 : 0 ≤ n) (h1 : n ≤ (MAX_SUBJECTS : Int)) :
    clampSubjects n = n := by
  unfold clampSubjects
  have : ¬ n < 0 := by omega
  have h2 : ¬ n > (MAX_SUBJECTS : Int) := by omega
  simp only [this, if_false, h2]

/-- The record loop reads back, record by record, what `saveStudents` wrote. -/
theorem loadStudentsLoop_saveStudents (recs : List Student) (room : Nat)
    (hroom : recs.length ≤ room) (hvalid : ∀ s ∈ recs, s.storable) :
    loadStudentsLoop room (saveStudents recs) = some (recs.map Student.inUse) := by
  induction recs generalizing room with
  | nil =>
    cases room with
    | zero => rfl
    | succ room => rfl
  | cons s rest ih =>
    cases room with
    | zero => simp at hroom
    | succ room =>
      have hs := hvalid s (List.mem_cons_self s rest)
      obtain ⟨h0, h1, hnames, hmarks, _, _, _, hsub⟩ := id hs
      have hlen : s.indices.length = s.numSubjects.toNat := by simp [Student.indices]
      have hsubs := scanSubjects_lines s s.indices (saveStudents rest) (by
        intro j hj
        apply hsub j
        simpa [Student.indices] using hj)
      rw [hlen] at hsubs
      rw [saveStudents, studentText_append]
      simp only [loadStudentsLoop]
      rw [scanHeader_header s hs (subjectLines s s.indices ++ saveStudents rest)]
      simp only [clampSubjects_of_valid _ h0 h1, hsubs, finiteMarks_fin, F32.toRat?]
      rw [loadStudentsLoop_space room '\n' _ (by decide),
        ih room (by simpa using hroom) (fun t ht => hvalid t (List.mem_cons_of_mem s ht))]
      simp only [List.map_cons, List.map_map, Option.some.injEq, List.cons.injEq, and_true]
      simp only [Student.inUse]
      congr 1
      · exact range_map_getD s.subjectNames "" _ hnames
      · exact range_map_getD s.marks 0 _ hmarks

/-! ## Rounding error of `float` and of `%.2f` -/

theorem roundNearestEven_bounds (n d : Nat) (hd : 0 < d) :
    2 * (roundNearestEven n d * d) ≤ 2 * n + d ∧ 2 * n ≤ 2 * (roundNearestEven n d * d) + d := by
  have h1 := Nat.div_add_mod n d
  have h2 := Nat.mod_lt n hd
  have h3 : (n / d + 1) * d = d * (n / d) + d := by ring
  have h4 : n / d * d = d * (n / d) := by ring
  unfold roundNearestEven
  simp only []
  split_ifs <;> simp only [h3, h4] <;> omega

/-- The rounding is the only integer within less than one half of `n / d`. -/
theorem roundNearestEven_unique (n d k : Nat) (hd : 0 < d)
    (h1 : 2 * (k * d) < 2 * n + d) (h2 : 2 * n < 2 * (k * d) + d) :
    roundNearestEven n d = k := by
  obtain ⟨b1, b2⟩ := roundNearestEven_bounds n d hd
  by_contra hne
  rcases Nat.lt_or_gt_of_ne hne with hlt | hgt
  · have : (roundNearestEven n d + 1) * d ≤ k * d := Nat.mul_le_mul_right d hlt
    have e : (roundNearestEven n d + 1) * d = roundNearestEven n d * d + d := by ring
    omega
  · have : (k + 1) * d ≤ roundNearestEven n d * d := Nat.mul_le_mul_right d hgt
    have e : (k + 1) * d = k * d + d := by ring
    omega

theorem searchExp_spec (fuel : Nat) (lo hi : Int) (a b : Nat) :
    searchExp fuel lo hi a b = lo ∨ pow2Le (searchExp fuel lo hi a b) a b = true := by
  induction fuel generalizing lo hi with
  | zero => exact Or.inl rfl
  | succ fuel ih =>
    unfold searchExp
    by_cases h : hi ≤ lo
    · simp [h]
    · simp only [h, if_false]
      by_cases hp : pow2Le ((lo + hi + 1) / 2) a b = true
      · simp only [hp, if_true]
        rcases ih ((lo + hi + 1) / 2) hi with e | e
        · rw [e]; exact Or.inr hp
        · exact Or.inr e
      · simp only [hp]
        exact ih lo ((lo + hi + 1) / 2 - 1)

/-- Below `2 ^ 17` the binary32 exponent is at most 16. -/
theorem f32Exponent_le (a b : Nat) (h : a < b * 131072) :
    f32Exponent a b ≤ 16 := by
  unfold f32Exponent
  rcases searchExp_spec 8 (-126) 127 a b with e | e
  · rw [e]; norm_num
  · by_contra hgt
    have h17 : 17 ≤ searchExp 8 (-126) 127 a b := by omega
    generalize searchExp 8 (-126) 127 a b = E at e h17
    unfold pow2Le at e
    have hE : 0 ≤ E := by omega
    simp only [hE, if_true, decide_eq_true_eq] at e
    have hpow : 2 ^ 17 ≤ 2 ^ E.toNat := Nat.pow_le_pow_right (by norm_num) (by omega)
    have : b * 2 ^ 17 ≤ b * 2 ^ E.toNat := Nat.mul_le_mul_left b hpow
    norm_num at this
    omega

/-- Below `2 ^ 17` in magnitude, rounding to `float` gives a finite value within `1 / 256`
of the number, of the same sign. -/
theorem F32_round_small (q : ℚ) (hq : |q| < 131072) :
    ∃ m : ℚ, F32.round q = F32.fin m ∧ |m - q| ≤ 1 / 256 ∧ (0 ≤ q → 0 ≤ m) ∧
      (q < 0 → m ≤ 0) := by
  have hb : 0 < q.den := q.den_pos
  have hbq : (0 : ℚ) < (q.den : ℚ) := by exact_mod_cast hb
  have habs : |q| = (q.num.natAbs : ℚ) / (q.den : ℚ) := by
    conv_lhs => rw [← Rat.num_div_den q]
    rw [abs_div, Nat.abs_cast, Nat.cast_natAbs, Int.cast_abs]
  have ha : q.num.natAbs < q.den * 131072 := by
    rw [habs, div_lt_iff₀ hbq] at hq
    have : (q.num.natAbs : ℚ) < ((q.den * 131072 : Nat) : ℚ) := by
      push_cast; linarith
    exact_mod_cast this
  have hE := f32Exponent_le q.num.natAbs q.den ha
  generalize hEdef : f32Exponent q.num.natAbs q.den = E at hE
  have hu0 : ¬ (0 ≤ E - 23) := by omega
  have hu104 : ¬ (E - 23 = 104 ∧
      2 ^ 24 ≤ roundNearestEven (q.num.natAbs * 2 ^ (-(E - 23)).toNat) q.den) := by
    intro h; omega
  have hp : 7 ≤ (-(E - 23)).toNat := by omega
  generalize hpdef : (-(E - 23)).toNat = p at hp hu104
  generalize hrdef : roundNearestEven (q.num.natAbs * 2 ^ p) q.den = r at hu104
  have hround : F32.round q =
      F32.fin (if q < 0 then -(mkRat (r : Int) (2 ^ p)) else mkRat (r : Int) (2 ^ p)) := by
    unfold F32.round
    simp only [hEdef, hu0, if_false, hpdef, hrdef, hu104]
  obtain ⟨b1, b2⟩ := roundNearestEven_bounds (q.num.natAbs * 2 ^ p) q.den hb
  rw [hrdef] at b1 b2
  have hpow : (0 : ℚ) < (2 : ℚ) ^ p := by positivity
  have hpow7 : (128 : ℚ) ≤ (2 : ℚ) ^ p := by
    have : (2 : ℚ) ^ 7 ≤ (2 : ℚ) ^ p := pow_le_pow_right₀ (by norm_num) hp
    norm_num at this
    exact this
  have hmag : (mkRat (r : Int) (2 ^ p) : ℚ) = (r : ℚ) / (2 : ℚ) ^ p := by
    rw [Rat.mkRat_eq_div]; push_cast; rfl
  have c1 : (2 : ℚ) * ((r : ℚ) * q.den) ≤ 2 * ((q.num.natAbs : ℚ) * 2 ^ p) + q.den := by
    exact_mod_cast b1
  have c2 : (2 : ℚ) * ((q.num.natAbs : ℚ) * 2 ^ p) ≤ 2 * ((r : ℚ) * q.den) + q.den := by
    exact_mod_cast b2
  have herr : abs ((r : ℚ) / (2 : ℚ) ^ p - abs q) ≤ 1 / 256 := by
    rw [habs, abs_le]
    have hden : (0 : ℚ) < (2 : ℚ) ^ p * q.den := by positivity
    constructor
    · rw [div_sub_div _ _ (ne_of_gt hpow) (ne_of_gt hbq), le_div_iff₀ hden]
      nlinarith
    · rw [div_sub_div _ _ (ne_of_gt hpow) (ne_of_gt hbq), div_le_iff₀ hden]
      nlinarith
  have hmag0 : (0 : ℚ) ≤ (r : ℚ) / (2 : ℚ) ^ p := by positivity
  refine ⟨_, hround, ?_, ?_, ?_⟩
  · by_cases hneg : q < 0
    · simp only [hneg, if_true, hmag]
      rw [abs_of_neg hneg] at herr
      have : -((r : ℚ) / 2 ^ p) - q = -((r : ℚ) / 2 ^ p - -q) := by ring
      rw [this, abs_neg]
      exact herr
    · simp only [hneg, if_false, hmag]
      rw [abs_of_nonneg (not_lt.mp hneg)] at herr
      exact herr
  · intro h0
    simp only [not_lt.mpr h0, if_false, hmag]
    exact hmag0
  · intro hneg
    simp only [hneg, if_true, hmag]
    linarith

theorem roundHundredths_eq (q : ℚ) :
    roundHundredths q = roundNearestEven (q.num.natAbs * 100) q.den := by
  rfl

/-- Every `float` that is the nearest to a number with at most two decimals, of magnitude
below 131072, is read back from its own text. -/
theorem reloads_of_nearest (k : Int) (m : ℚ) (hk : |k| < 13107200)
    (hm : F32.round (mkRat k 100) = F32.fin m) : reloads m := by
  have hq : (mkRat k 100 : ℚ) = (k : ℚ) / 100 := by
    rw [Rat.mkRat_eq_div]; norm_num
  have hkq : |(k : ℚ)| < 13107200 := by exact_mod_cast hk
  have hsmall : |(mkRat k 100 : ℚ)| < 131072 := by
    rw [hq, abs_div]
    norm_num
    linarith
  obtain ⟨m', h1, h2, h3, h4⟩ := F32_round_small (mkRat k 100) hsmall
  rw [hm] at h1
  have hmm : m = m' := F32.fin.inj h1
  subst hmm
  rw [hq] at h2 h3 h4
  rw [abs_le] at h2
  have hb : 0 < m.den := m.den_pos
  have hbq : (0 : ℚ) < (m.den : ℚ) := by exact_mod_cast hb
  have habs : |m| = (m.num.natAbs : ℚ) / (m.den : ℚ) := by
    conv_lhs => rw [← Rat.num_div_den m]
    rw [abs_div, Nat.abs_cast, Nat.cast_natAbs, Int.cast_abs]
  have hkabs : ((k.natAbs : Nat) : ℚ) = |(k : ℚ)| := by
    rw [Nat.cast_natAbs, Int.cast_abs]
  -- the distance between the magnitudes
  have hdist : abs (|m| * 100 - |(k : ℚ)|) < 1 / 2 := by
    have e : |m| * 100 - |(k : ℚ)| = |m * 100| - |(k : ℚ)| := by
      rw [abs_mul]; norm_num
    rw [e]
    have h5 := abs_abs_sub_abs_le_abs_sub (m * 100) (k : ℚ)
    have h6 : |m * 100 - (k : ℚ)| < 1 / 2 := by
      rw [abs_lt]
      constructor <;> linarith
    linarith
  rw [habs, abs_lt] at hdist
  obtain ⟨d1, d2⟩ := hdist
  have hr : roundHundredths m = k.natAbs := by
    rw [roundHundredths_eq]
    apply roundNearestEven_unique _ _ _ hb
    · have : (2 : ℚ) * ((k.natAbs : ℚ) * m.den) < 2 * ((m.num.natAbs : ℚ) * 100) + m.den := by
        rw [hkabs]
        have := mul_lt_mul_of_pos_right d1 hbq
        rw [sub_mul, div_mul_eq_mul_div, div_mul_cancel₀ _ (ne_of_gt hbq)] at this
        linarith
      exact_mod_cast this
    · have : (2 : ℚ) * ((m.num.natAbs : ℚ) * 100) < 2 * ((k.natAbs : ℚ) * m.den) + m.den := by
        rw [hkabs]
        have := mul_lt_mul_of_pos_right d2 hbq
        rw [sub_mul, div_mul_eq_mul_div, div_mul_cancel₀ _ (ne_of_gt hbq)] at this
        linarith
      exact_mod_cast this
  have htext : textValue m = mkRat k 100 := by
    unfold textValue
    rw [hr]
    have hnat : (mkRat ((k.natAbs : Nat) : Int) 100 : ℚ) = |(k : ℚ)| / 100 := by
      rw [Rat.mkRat_eq_div]; push_cast; rfl
    rw [hnat, hq]
    by_cases hk0 : 0 ≤ k
    · have hkq0 : (0 : ℚ) ≤ (k : ℚ) := by exact_mod_cast hk0
      have hm0 : 0 ≤ m := h3 (by positivity)
      rw [if_neg (not_lt.mpr hm0), abs_of_nonneg hkq0]
    · have hkneg : (k : ℚ) ≤ -1 := by
        have : k ≤ -1 := by omega
        exact_mod_cast this
      have hmneg : m < 0 := by linarith
      rw [if_pos hmneg, abs_of_neg (by linarith)]
      ring
  unfold reloads
  rw [htext, hm]

/-- C6 (as stated) fails: `exSpacedName` has 0 subjects and the name `"Ann Lee"`, which
`addStudent` reads with `readLine`; `saveStudents` writes `8 Ann Lee CSE 3 0 90.00` and
`loadStudents` reads `Ann` as name, `Lee` as branch, fails on `CSE` as semester and loads
nothing. `exThreeDecimals` has 1 subject with the mark 0.125, a `float`; it is written as
`0.12` and loaded as the `float` nearest to 0.12. -/
theorem loadStudents_saveStudents_counterexample :
    (0 ≤ exSpacedName.numSubjects ∧ exSpacedName.numSubjects ≤ 10) ∧
      saveStudents [exSpacedName] = "8 Ann Lee CSE 3 0 90.00\n".data ∧
      loadStudents (saveStudents [exSpacedName]) = some [] ∧
      loadStudents (saveStudents [exSpacedName]) ≠ some [exSpacedName] ∧
      (0 ≤ exThreeDecimals.numSubjects ∧ exThreeDecimals.numSubjects ≤ 10) ∧
      isF32 (exThreeDecimals.mark 0) ∧ isF32 exThreeDecimals.attendance ∧
      saveStudents [exThreeDecimals] = "9 Ann CSE 3 1 90.00\nMath 0.12\n".data ∧
      loadStudents (saveStudents [exThreeDecimals]) =
        some [{ exThreeDecimals with marks := [mkRat 16106127 134217728] }] ∧
      loadStudents (saveStudents [exThreeDecimals]) ≠ some [exThreeDecimals] := by
  decide

/-- C6 (amended): for every collection of at most 200 storable records (0 to 10 subjects;
name, branch and the subject names in use non-empty, free of white space and within 49, 19
and 29 characters; attendance and each mark in use a `float` that is the nearest `float` to
the two-decimal number written for it), loading the text `saveStudents` writes yields the
same records in the same order, each with its roll, name, branch, semester, numSubjects,
attendance and its first `numSubjects` subject names and marks in order; when the records
hold no slots beyond those in use, the collection loaded is the collection saved. The
condition on the numbers holds of every `float` that is the nearest to a number with at
most two decimals of magnitude below 131072. -/
theorem loadStudents_saveStudents (recs : List Student)
    (hlen : recs.length ≤ MAX_STUDENTS) (hvalid : ∀ s ∈ recs, s.storable) :
    loadStudents (saveStudents recs) = some (recs.map Student.inUse) ∧
      ((∀ s ∈ recs, s.subjectNames.length = s.numSubjects.toNat ∧
          s.marks.length = s.numSubjects.toNat) →
        loadStudents (saveStudents recs) = some recs) ∧
      (∀ (k : Int) (m : ℚ), |k| < 13107200 → F32.round (mkRat k 100) = F32.fin m →
        reloads m) := by
  have h : loadStudents (saveStudents recs) = some (recs.map Student.inUse) :=
    loadStudentsLoop_saveStudents recs MAX_STUDENTS hlen hvalid
  refine ⟨h, ?_, fun k m hk hm => reloads_of_nearest k m hk hm⟩
  intro hslots
  rw [h]
  congr 1
  conv_rhs => rw [← List.map_id recs]
  apply List.map_congr_left
  intro s hs
  obtain ⟨hn, hm⟩ := hslots s hs
  cases s
  simp only [Student.inUse, id]
  simp only at hn hm
  rw [← hn, List.take_length]
  congr 1
  rw [hn, ← hm, List.take_length]

/-- C6 witness: the store of a record without subjects, a record with two subjects and a
record with ten subjects (among its numbers the `float`s 39.99f and 92.55f) is loaded back
as saved; a record with two subjects in use out of ten slots is loaded back with the two
subjects in use. -/
theorem loadStudents_saveStudents_witness :
    loadStudents (saveStudents exStore) = some exStore ∧
      loadStudents (saveStudents [exNoSubjects, exTenSlots, exTenSubjects]) =
        some [exNoSubjects,
          { exTenSlots with subjectNames := ["Math", "Art"], marks := [40, 50] },
          exTenSubjects] :=
  ⟨(loadStudents_saveStudents exStore (by decide) (by decide)).2.1 (by decide),
    (loadStudents_saveStudents [exNoSubjects, exTenSlots, exTenSubjects]
      (by decide) (by decide)).1⟩

/-! ## Uniqueness and capacity invariant -/

theorem applyGrace_roll (s : Student) : (applyGrace s).roll = s.roll := by
  unfold applyGrace
  dsimp only
  split_ifs <;> rfl

theorem map_username_set (users : List User) (i : Nat) (u v : User)
    (hu : users[i]? = some u) (hv : v.username = u.username) :
    (users.set i v).map User.username = users.map User.username := by
  induction users generalizing i with
  | nil => rfl
  | cons x xs ih =>
    cases i with
    | zero =>
      simp only [List.getElem?_cons_zero, Option.some.injEq] at hu
      simp [hv, hu]
    | succ i =>
      simp only [List.getElem?_cons_succ] at hu
      simp [ih i hu]

theorem createUser_invariant (st : State) (uname pass role : String)
    (hu : uname.length ≤ NAME_LEN - 1) (h : StoreInvariant st) :
    StoreInvariant (createUser st uname pass role).2 := by
  obtain ⟨h1, h2, h3, h4⟩ := h
  unfold createUser
  by_cases hcap : st.users.length ≥ MAX_USERS
  · rw [if_pos hcap]
    exact ⟨h1, h2, h3, h4⟩
  · by_cases hex : (findUser st.users uname).isSome = true
    · rw [if_neg hcap, if_pos hex]
      exact ⟨h1, h2, h3, h4⟩
    · rw [if_neg hcap, if_neg hex]
      have hnew : ∀ a ∈ st.users, a.username ≠ uname := by
        intro a ha hau
        exact hex ((findUser_isSome_iff _ _).mpr ⟨a, ha, hau⟩)
      refine ⟨?_, h2, ?_, h4⟩
      · simp only [List.map_append, List.map_cons, List.map_nil, copyBounded_of_le _ _ hu]
        rw [List.nodup_append]
        refine ⟨h1, List.nodup_singleton _, ?_⟩
        intro x hx hx'
        rw [List.mem_singleton] at hx'
        obtain ⟨a, ha, hax⟩ := List.mem_map.mp hx
        exact hnew a ha (hax.trans hx')
      · simp only [List.length_append, List.length_singleton]
        omega

theorem resetPassword_invariant (st : State) (uname newpass : String)
    (h : StoreInvariant st) : StoreInvariant (resetPassword st uname newpass).2 := by
  obtain ⟨h1, h2, h3, h4⟩ := h
  unfold resetPassword
  cases hf : findUser st.users uname with
  | none => exact ⟨h1, h2, h3, h4⟩
  | some i =>
    simp only []
    cases hu : st.users[i]? with
    | none => exact ⟨h1, h2, h3, h4⟩
    | some u =>
      refine ⟨?_, h2, ?_, h4⟩
      · simp only []
        rw [map_username_set st.users i u
          { u with password := copyBounded (NAME_LEN - 1) newpass } hu rfl]
        exact h1
      · simp only [List.length_set]
        exact h3

theorem loginSuccess_stores (now : String) (st : State) (i : Nat) :
    (loginSuccess now st i).1.users.map User.username = st.users.map User.username ∧
      (loginSuccess now st i).1.users.length = st.users.length ∧
      (loginSuccess now st i).1.students = st.students := by
  unfold loginSuccess
  cases hu : st.users[i]? with
  | none => exact ⟨rfl, rfl, rfl⟩
  | some u =>
    refine ⟨?_, ?_, rfl⟩
    · simp only []
      exact map_username_set st.users i u _ hu rfl
    · simp only [List.length_set]

theorem loginLoop_stores (now : String) (remaining attempts : Nat) (st : State)
    (inp : List (String × String)) :
    (loginLoop now remaining attempts st inp).state.users.map User.username =
        st.users.map User.username ∧
      (loginLoop now remaining attempts st inp).state.users.length = st.users.length ∧
      (loginLoop now remaining attempts st inp).state.students = st.students := by
  induction remaining generalizing attempts inp with
  | zero => exact ⟨rfl, rfl, rfl⟩
  | succ n ih =>
    simp only [loginLoop]
    cases hauth : authenticate st.users (inp.headD ("", "")).1 (inp.headD ("", "")).2 with
    | some i => exact loginSuccess_stores now st i
    | none => exact ih (attempts + 1) inp.tail

theorem loginSystem_invariant (now : String) (st : State) (inp : List (String × String))
    (h : StoreInvariant st) : StoreInvariant (loginSystem now st inp).state := by
  obtain ⟨h1, h2, h3, h4⟩ := h
  obtain ⟨e1, e2, e3⟩ := loginLoop_stores now 3 0 st inp
  unfold loginSystem StoreInvariant
  rw [e1, e2, e3]
  exact ⟨h1, h2, h3, h4⟩

theorem addStudent_invariant (st : State) (f : StudentForm) (h : StoreInvariant st) :
    StoreInvariant (addStudent st f).2 := by
  obtain ⟨h1, h2, h3, h4⟩ := h
  unfold addStudent
  by_cases hcap : st.students.length ≥ MAX_STUDENTS
  · rw [if_pos hcap]
    exact ⟨h1, h2, h3, h4⟩
  · rw [if_neg hcap]
    cases hr : f.roll with
    | none => exact ⟨h1, h2, h3, h4⟩
    | some r =>
      simp only []
      by_cases hex : (findStudentByRoll st.students r).isSome = true
      · rw [if_pos hex]
        exact ⟨h1, h2, h3, h4⟩
      · rw [if_neg hex]
        have hnew : ∀ s ∈ st.students, s.roll ≠ r := by
          intro s hs hsr
          exact hex ((findStudentByRoll_isSome_iff _ _).mpr ⟨s, hs, hsr⟩)
        refine ⟨h1, ?_, h3, ?_⟩
        · simp only [List.map_append, List.map_cons, List.map_nil, applyGrace_roll]
          rw [List.nodup_append]
          refine ⟨h2, List.nodup_singleton _, ?_⟩
          intro x hx hx'
          rw [List.mem_singleton] at hx'
          obtain ⟨s, hs, hsx⟩ := List.mem_map.mp hx
          exact hnew s hs (hsx.trans hx')
        · simp only [List.length_append, List.length_singleton]
          omega

theorem step_invariant (st : State) (op : Op) (hfit : op.fitsBuffer)
    (h : StoreInvariant st) : StoreInvariant (step st op) := by
  cases op with
  | createUser uname pass role => exact createUser_invariant st uname pass role hfit h
  | resetPassword uname newpass => exact resetPassword_invariant st uname newpass h
  | login now attempts => exact loginSystem_invariant now st attempts h
  | addStudent form => exact addStudent_invariant st form h

theorem run_invariant (ops : List Op) (st : State) (hfit : ∀ op ∈ ops, op.fitsBuffer)
    (h : StoreInvariant st) : StoreInvariant (run st ops) := by
  induction ops generalizing st with
  | nil => exact h
  | cons op ops ih =>
    unfold run
    rw [List.foldl_cons]
    exact ih (step st op) (fun o ho => hfit o (List.mem_cons_of_mem op ho))
      (step_invariant st op (hfit op (List.mem_cons_self op ops)) h)

theorem emptyState_invariant (cf sf : Option (List Char)) :
    StoreInvariant (emptyState cf sf) := by
  refine ⟨List.nodup_nil, List.nodup_nil, ?_, ?_⟩ <;> simp [emptyState]

theorem bootstrap_invariant (cf sf : Option (List Char)) :
    StoreInvariant (bootstrap (emptyState cf sf)) := by
  refine ⟨?_, List.nodup_nil, ?_, ?_⟩
  · simp [bootstrap, emptyState]
  · simp [bootstrap, emptyState, MAX_USERS]
  · simp [bootstrap, emptyState]

/-- C11: in every state reached from the empty stores, or from the bootstrap store holding
only the default admin/admin account, by any sequence of `createUser`, `resetPassword`,
`loginSystem` and `addStudent` operations (the username read by `createUser` fitting its
buffer), no two accounts share a username, no two student records share a roll, and there
are at most 50 accounts and at most 200 student records. -/
theorem store_invariant_reachable (cf sf : Option (List Char)) (init : State)
    (hinit : init = emptyState cf sf ∨ init = bootstrap (emptyState cf sf))
    (ops : List Op) (hfit : ∀ op ∈ ops, op.fitsBuffer) :
    ((run init ops).users.map User.username).Nodup ∧
      ((run init ops).students.map Student.roll).Nodup ∧
      (run init ops).users.length ≤ 50 ∧
      (run init ops).students.length ≤ 200 ∧
      (bootstrap (emptyState cf sf)).users = [defaultAdmin] ∧
      (bootstrap (emptyState cf sf)).students = [] := by
  have h0 : StoreInvariant init := by
    rcases hinit with h | h
    · rw [h]; exact emptyState_invariant cf sf
    · rw [h]; exact bootstrap_invariant cf sf
  obtain ⟨h1, h2, h3, h4⟩ := run_invariant ops init hfit h0
  exact ⟨h1, h2, h3, h4, rfl, rfl⟩

set_option maxRecDepth 100000 in
/-- C11 witness: from the bootstrap store, the session `exSession` ends with the accounts
`admin` and `ravi` and the single roll 12 (the repeated requests are refused); sixty
requests ending at the limit leave 50 accounts. -/
theorem store_invariant_reachable_witness :
    ((run (bootstrap (emptyState none none)) exSession).users.map User.username).Nodup ∧
      (run (bootstrap (emptyState none none)) exSession).users.map User.username =
        ["admin", "ravi"] ∧
      (run (bootstrap (emptyState none none)) exSession).students.map Student.roll = [12] ∧
      (run (emptyState none none) exManyCreates).users.length ≤ 50 ∧
      (run (emptyState none none) exManyCreates).users.length = 50 :=
  ⟨(store_invariant_reachable none none (bootstrap (emptyState none none)) (Or.inr rfl)
      exSession (by decide)).1,
    by decide, by decide,
    (store_invariant_reachable none none (emptyState none none) (Or.inl rfl)
      exManyCreates (by decide)).2.2.1,
    by decide⟩

end SRMS
